import Mathlib

set_option maxRecDepth 100000

/-!
A shallow embedding of the gorecipes backend recipe store
(`backend/internal/database/recipes_postgres.go`, the recipe handlers, and the
relevant parts of `schema.sql`) together with theorems settling the frozen
claims about it.

Modelling conventions:
* Database UUIDs are modelled as `Nat` identifiers drawn from a fresh-id
  counter in the store; `time.Now()` is a `Nat` clock.
* SQL tables are lists of row structures; inserts append at the end; a SQL
  `SELECT ... WHERE k = $1` without `ORDER BY` is modelled as the first
  matching row in insertion order.
* Go `string` operations are re-implemented structurally over `String.data`
  so that every definition evaluates by kernel reduction.
* Go byte lengths (`len`) are modelled as character counts (all the strings
  involved in the claims are ASCII, where the two coincide).
* A transaction is modelled by threading a working store through the
  operation; returning `.error` means the transaction rolled back, so the
  caller's store is unchanged (made explicit by the `apply*` wrappers).
-/

deriving instance DecidableEq for Except

namespace GoRecipes

/-- Whitespace test used throughout (Go `unicode.IsSpace` on the ASCII inputs
involved coincides with `Char.isWhitespace`). -/
def wsp (c : Char) : Bool := c.isWhitespace

/-- Drop leading and trailing whitespace, Go `strings.TrimSpace`. -/
def trimChars (cs : List Char) : List Char :=
  ((cs.dropWhile wsp).reverse.dropWhile wsp).reverse

/-- Go `strings.TrimSpace`. -/
def sTrim (s : String) : String := String.mk (trimChars s.data)

/-- Go `strings.ToLower` (ASCII). -/
def sLower (s : String) : String := String.mk (s.data.map Char.toLower)

/-- One step of splitting a character list into maximal non-whitespace runs. -/
def fieldsFold (c : Char) (acc : List (List Char)) : List (List Char) :=
  if wsp c then [] :: acc
  else
    match acc with
    | [] => [[c]]
    | w :: rest => (c :: w) :: rest

/-- Maximal non-whitespace runs of a character list. -/
def fieldsChars (cs : List Char) : List (List Char) :=
  (cs.foldr fieldsFold [[]]).filter (fun w => !w.isEmpty)

/-- Go `strings.Fields`: split around runs of whitespace. -/
def sFields (s : String) : List String := (fieldsChars s.data).map String.mk

/-- Does `cs` start with `pat`? -/
def beginsWith : List Char → List Char → Bool
  | _, [] => true
  | [], _ :: _ => false
  | c :: cs, p :: ps => c == p && beginsWith cs ps

/-- A left-to-right scanner: at each position, `probe` either recognizes a
match — yielding the number of characters it spans (at least one) and the
replacement to emit — or fails, in which case the character is copied. The
skip counter threads the remaining span of the current match, making the
recursion structural (so that the kernel can evaluate it). -/
def scanReplace (probe : List Char → Option (Nat × List Char)) :
    List Char → Nat → List Char
  | [], _ => []
  | _ :: rest, skip + 1 => scanReplace probe rest skip
  | c :: rest, 0 =>
    match probe (c :: rest) with
    | some (n, rep) => rep ++ scanReplace probe rest (n - 1)
    | none => c :: scanReplace probe rest 0

/-- Replace every (leftmost, non-overlapping) occurrence of `pat` by `rep`,
Go `strings.ReplaceAll`. All call sites pass a non-empty pattern; an empty
pattern is treated as "no occurrence". -/
def replaceAllChars (cs pat rep : List Char) : List Char :=
  if pat.isEmpty then cs
  else
    scanReplace
      (fun t => if beginsWith t pat then some (pat.length, rep) else none)
      cs 0

/-- Go `strings.ReplaceAll`. -/
def sReplaceAll (s pat rep : String) : String :=
  String.mk (replaceAllChars s.data pat.data rep.data)

/-- The handler's `removeSubstrings`: for each entry, remove it when padded by
spaces, at a word start, and at a word end (in that order). -/
def removeSubstrings (s : String) (subs : List String) : String :=
  subs.foldl
    (fun acc sub =>
      let acc := sReplaceAll acc (" " ++ sub ++ " ") " "
      let acc := sReplaceAll acc (sub ++ " ") " "
      sReplaceAll acc (" " ++ sub) " ")
    s

theorem dropWhile_length_le (p : Char → Bool) (cs : List Char) :
    (cs.dropWhile p).length ≤ cs.length :=
  (List.dropWhile_sublist _).length_le

/-- Attempt to match "dash or slash, whitespace*, digits+" (the body of the
first optional regex group, after its leading whitespace has been dropped);
`some` returns the remainder after the match. -/
def dashNumTail : List Char → Option (List Char)
  | c :: rest =>
    if c == '-' || c == '/' then
      match rest.dropWhile wsp with
      | d :: _ => if d.isDigit then some ((rest.dropWhile wsp).dropWhile Char.isDigit) else none
      | [] => none
    else none
  | [] => none

/-- Optional regex group "whitespace*, dash or slash, whitespace*, digits+"
after the leading digit run: consume it when it matches, otherwise return the
input unchanged. -/
def numGroup1 (cs : List Char) : List Char :=
  (dashNumTail (cs.dropWhile wsp)).getD cs

/-- Attempt to match "dot, digits+"; `some` returns the remainder. -/
def dotNumTail : List Char → Option (List Char)
  | c :: rest =>
    if c == '.' then
      match rest with
      | d :: _ => if d.isDigit then some (rest.dropWhile Char.isDigit) else none
      | [] => none
    else none
  | [] => none

/-- Optional regex group "dot, digits+". -/
def numGroup2 (cs : List Char) : List Char :=
  (dotNumTail cs).getD cs

/-- Attempt to match "whitespace+, digits+, slash, digits+" (a mixed-number
fraction); `some` returns the remainder. -/
def fracTail : List Char → Option (List Char)
  | c :: rest =>
    if wsp c then
      match (c :: rest).dropWhile wsp with
      | d :: _ =>
        if d.isDigit then
          match ((c :: rest).dropWhile wsp).dropWhile Char.isDigit with
          | sl :: rest2 =>
            if sl == '/' then
              match rest2 with
              | e :: _ => if e.isDigit then some (rest2.dropWhile Char.isDigit) else none
              | [] => none
            else none
          | [] => none
        else none
      | [] => none
    else none
  | [] => none

/-- Optional regex group "whitespace+, digits+, slash, digits+". -/
def numGroup3 (cs : List Char) : List Char :=
  (fracTail cs).getD cs

/-- The tail of a quantity match after its leading digit run, i.e. the three
optional groups of the handler's number regex (range, decimal part, and
mixed-number fraction). -/
def numTail (cs : List Char) : List Char := numGroup3 (numGroup2 (numGroup1 cs))


/-- Recognize one match of the handler's number regex at the head of the
input: a digit run followed by the three optional groups; yields the length
of the match, which is erased. -/
def numProbe : List Char → Option (Nat × List Char)
  | [] => none
  | c :: rest =>
    if c.isDigit then
      some (1 + rest.length - (numTail (rest.dropWhile Char.isDigit)).length, [])
    else none

/-- Remove every match of the handler's number regex — a digit run followed by
the three optional groups (Go `reNum.ReplaceAllString(_, "")`; a failed match
advances one character, like the RE2 scan). -/
def stripNumAux (cs : List Char) : List Char := scanReplace numProbe cs 0

/-- Remove quantity tokens (numbers, fractions, ranges, mixed numbers). -/
def stripNumbers (s : String) : String := String.mk (stripNumAux s.data)

/-- Recognize a whitespace run at the head of the input; it is replaced by a
single space. -/
def wsProbe : List Char → Option (Nat × List Char)
  | [] => none
  | c :: rest =>
    if wsp c then some (1 + rest.length - (rest.dropWhile wsp).length, [' '])
    else none

/-- Replace every whitespace run by a single space (the whitespace-run
collapsing regex). -/
def collapseAux (cs : List Char) : List Char := scanReplace wsProbe cs 0

/-- Replace every whitespace run by a single space. -/
def collapseSpaces (s : String) : String := String.mk (collapseAux s.data)

/-- The handler's `commonUnits` vocabulary. -/
def commonUnits : List String :=
  ["g", "kg", "mg", "oz", "lb", "lbs",
   "ml", "l", "cl", "dl",
   "tsp", "tbsp", "fl oz", "cup", "cups", "pt", "qt", "gal",
   "pinch", "dash", "clove", "cloves", "head", "heads",
   "slice", "slices", "piece", "pieces",
   "half", "quarter"]

/-- The handler's `commonDescriptors` vocabulary. -/
def commonDescriptors : List String :=
  ["fresh", "dried", "frozen", "canned", "cooked", "uncooked", "raw",
   "chopped", "diced", "sliced", "minced", "grated", "crushed", "peeled", "seeded",
   "large", "medium", "small",
   "ripe", "unripe",
   "optional", "to taste", "for garnish",
   "plain", "all-purpose", "self-raising", "whole", "ground", "granulated", "powdered",
   "boneless", "skinless",
   "finely", "coarsely", "roughly",
   "hot", "cold", "warm", "chilled",
   "sweet", "unsweetened", "salted", "unsalted"]

/-- The handler's `commonStopWords` vocabulary. -/
def commonStopWords : List String :=
  ["a", "an", "the", "of", "and", "or", "with", "without", "in", "on", "at", "for", "to", "from",
   "some", "any", "about", "into", "over", "under"]

/-- The handler's `normalizeAndCleanToken`: lowercase and trim. -/
def normalizeAndCleanToken (token : String) : String := sLower (sTrim token)

/-- Insert into an insertion-ordered set (models adding a key to the Go
`map[string]bool`; the Go map's random iteration order is fixed here as
insertion order). -/
def insertUnique (acc : List String) (x : String) : List String :=
  if acc.contains x then acc else acc ++ [x]

/-- Steps 1-5 of `extractFilterableNames`: lowercase, strip quantities, strip
units, strip descriptors, trim and collapse whitespace. -/
def cleanedIngredientText (fullIngredient : String) : String :=
  let processed := stripNumbers (sLower fullIngredient)
  let processed := removeSubstrings processed commonUnits
  let processed := removeSubstrings processed commonDescriptors
  collapseSpaces (sTrim processed)

/-- The fallback string of `extractFilterableNames`: the lowercase-trimmed
original with quantities removed, whitespace-collapsed. -/
def fallbackIngredientText (fullIngredient : String) : String :=
  collapseSpaces (sTrim (stripNumbers (normalizeAndCleanToken fullIngredient)))

/-- The handler's `extractFilterableNames` (`part_006`, the in-process
normalizer): core ingredient names extracted from a full ingredient line.
Go's byte-length thresholds are modelled as character counts. -/
def extractFilterableNames (fullIngredient : String) : List String :=
  if (sTrim fullIngredient) == "" then []
  else
    let trimmedProcessed := cleanedIngredientText fullIngredient
    let whole := if trimmedProcessed.data.length > 2 then [trimmedProcessed] else []
    let words := sFields trimmedProcessed
    let names := words.foldl
      (fun acc word =>
        let cleanedWord := normalizeAndCleanToken word
        if commonStopWords.contains cleanedWord then acc
        else if cleanedWord.data.length > 2 then insertUnique acc cleanedWord
        else acc)
      whole
    if names.isEmpty && !words.isEmpty then
      let originalTrimmed := fallbackIngredientText fullIngredient
      if originalTrimmed.data.length > 1 then [originalTrimmed] else []
    else names

/-- Descriptor words removed (with word boundaries) by the SQL function
`normalize_ingredient_name` in `schema.sql`. -/
def sqlDescriptorWords : List String :=
  ["fresh", "dried", "frozen", "canned", "cooked", "raw", "chopped", "diced",
   "sliced", "minced", "grated", "large", "medium", "small", "whole"]

/-- Unit words of the SQL quantity pattern (digits, optional whitespace, unit,
word boundary) in `normalize_ingredient_name`, in the pattern's order. -/
def sqlUnitWords : List String :=
  ["g", "kg", "mg", "oz", "lb", "lbs", "ml", "l", "cl", "dl", "tsp", "tbsp",
   "cup", "cups", "pt", "qt", "gal"]

/-- Regex word-constituent character (underscore or alphanumeric). -/
def isWordChar (c : Char) : Bool := c.isAlphanum || c == '_'

/-- One step of splitting a character list into maximal runs of
word/non-word characters. -/
def runsFold (c : Char) (acc : List (Bool × List Char)) : List (Bool × List Char) :=
  match acc with
  | (b, run) :: rest =>
    if b == isWordChar c then (b, c :: run) :: rest
    else (isWordChar c, [c]) :: (b, run) :: rest
  | [] => [(isWordChar c, [c])]

/-- Maximal word/non-word runs of a character list, tagged with whether the
run consists of word characters. -/
def runsOf (cs : List Char) : List (Bool × List Char) := cs.foldr runsFold []

/-- The first regex of the SQL `normalize_ingredient_name`: erase every
whole word (case-insensitively) that is one of the curated descriptors. -/
def removeSqlDescriptors (s : String) : String :=
  String.mk
    (((runsOf s.data).map
      (fun br =>
        if br.1 && sqlDescriptorWords.contains (String.mk (br.2.map Char.toLower))
        then [] else br.2)).flatten)

/-- Case-insensitive "starts with" on character lists. -/
def beginsWithCI : List Char → List Char → Bool
  | _, [] => true
  | [], _ :: _ => false
  | c :: cs, p :: ps => (c.toLower == p.toLower) && beginsWithCI cs ps

/-- Try each unit word in pattern order against the head of `cs`; on the
first case-insensitive match followed by a word boundary, return the
remainder. -/
def findUnit (cs : List Char) : List String → Option (List Char)
  | [] => none
  | u :: us =>
    if beginsWithCI cs u.data then
      match cs.drop u.data.length with
      | [] => some []
      | c :: rest => if isWordChar c then findUnit cs us else some (c :: rest)
    else findUnit cs us


/-- Recognize one match of the SQL quantity pattern — "digits, optional
whitespace, unit word, word boundary" — at the head of the input; yields the
length of the match, which is erased. -/
def qtyProbe (cs : List Char) : Option (Nat × List Char) :=
  match cs with
  | [] => none
  | c :: rest =>
    if c.isDigit then
      match findUnit ((rest.dropWhile Char.isDigit).dropWhile wsp) sqlUnitWords with
      | some r => some ((c :: rest).length - r.length, [])
      | none => none
    else none

/-- The second regex of the SQL `normalize_ingredient_name`: remove every
match of "digits, optional whitespace, unit word, word boundary" (a failed
match advances one character, like the scan of the regex engine). -/
def removeQtyAux (cs : List Char) : List Char := scanReplace qtyProbe cs 0

/-- Remove SQL quantity-plus-unit matches. -/
def removeSqlQuantities (s : String) : String := String.mk (removeQtyAux s.data)

/-- The SQL function `normalize_ingredient_name` from `schema.sql`, applied by
trigger to set `ingredients.normalized_name` from `ingredients.name` on every
insert or update: strip descriptors, strip quantity-unit pairs, collapse
whitespace, lowercase, trim. -/
def dbNormalize (name : String) : String :=
  sTrim (sLower (collapseSpaces (removeSqlQuantities (removeSqlDescriptors name))))

/-- Split at the first space, Go `strings.SplitN(s, " ", 2)`:
`none` when there is no space, otherwise the parts before and after it. -/
def splitFirstSpace : List Char → Option (List Char × List Char)
  | [] => none
  | c :: rest =>
    if c == ' ' then some ([], rest)
    else
      match splitFirstSpace rest with
      | none => none
      | some (a, b) => some (c :: a, b)

/-- Embeds `extractIngredientNameParts` from `recipes_postgres.go`: split a full
ingredient line into (quantity text, lowercased name part) at the first
space; a single-token line is all name, with empty quantity. The Go error
return is always nil, so it is omitted. -/
def extractIngredientNameParts (fullIngredient : String) : String × String :=
  match splitFirstSpace fullIngredient.data with
  | none => ("", sLower (sTrim fullIngredient))
  | some (a, b) => (sTrim (String.mk a), sLower (sTrim (String.mk b)))

/-- Embeds `normalizeIngredientName` from `recipes_postgres.go`: lowercase + trim. -/
def normalizeIngredientName (name : String) : String := sLower (sTrim name)

/-- Models the postgres full-text match
`normalized_name_tsvector @@ plainto_tsquery('english', term)`: every
lexeme of the (lowercased) term occurs among the lexemes of the (lowercased)
value; an empty tsquery matches nothing. English stemming and stop-word
removal of `to_tsvector` are not modelled (the claims' terms are their own
stems). -/
def tsMatch (v t : String) : Bool :=
  match sFields (sLower t) with
  | [] => false
  | w :: ws => (w :: ws).all (fun x => (sFields (sLower v)).contains x)

/-- A row of the `recipes` table. -/
structure RecipeRow where
  id : Nat
  name : String
  method : String
  photo : String
  createdAt : Nat
  updatedAt : Nat
deriving DecidableEq, Repr

/-- A row of the `ingredients` table (`normalized_name` is always set by the
`set_normalized_ingredient_name` trigger, i.e. `dbNormalize` of `name`). -/
structure IngredientRow where
  id : Nat
  name : String
  normalizedName : String
  createdAt : Nat
  updatedAt : Nat
deriving DecidableEq, Repr

/-- A row of the `recipe_ingredients` junction table. -/
structure LinkRow where
  id : Nat
  recipeId : Nat
  ingredientId : Nat
  quantityText : String
  sortOrder : Nat
deriving DecidableEq, Repr

/-- The recipe store: the three tables, a fresh-identifier counter (modelling
`uuid.NewString`), and a clock (modelling `time.Now`). -/
structure Store where
  recipes : List RecipeRow
  ingredients : List IngredientRow
  links : List LinkRow
  nextId : Nat
  now : Nat
deriving DecidableEq, Repr

/-- The empty store. -/
def emptyStore : Store := ⟨[], [], [], 0, 0⟩

/-- Errors surfaced by the store operations. `uniqueViolation` is the postgres
unique-constraint error (code 23505); `recipeNotFound` is the
"recipe with ID %s not found for update" error; the two mapping errors are the
"could not find DB ID for original ... ID" errors of the bundle import. -/
inductive DbError where
  | uniqueViolation
  | recipeNotFound
  | missingRecipeMapping (origId : Nat)
  | missingIngredientMapping (origId : Nat)
deriving DecidableEq, Repr

/-- Links of one recipe ordered by `sort_order ASC` (`ORDER BY` inside the
queries of `GetRecipeByID` and of the `array_agg` subquery). -/
def recipeLinksSorted (s : Store) (rid : Nat) : List LinkRow :=
  List.insertionSort (fun a b => a.sortOrder ≤ b.sortOrder)
    (s.links.filter (fun l => l.recipeId == rid))

/-- The ingredient display list built by `GetRecipeByID`: join each link row
with its ingredient and render `quantity_text + " " + name`, or the name
alone when the stored quantity text is empty. -/
def getIngredientDisplay (s : Store) (rid : Nat) : List String :=
  (recipeLinksSorted s rid).flatMap
    (fun l =>
      (s.ingredients.filter (fun i => i.id == l.ingredientId)).map
        (fun i =>
          if l.quantityText == "" then i.name
          else l.quantityText ++ " " ++ i.name))

/-- Embeds `GetRecipeByID` from `recipes_postgres.go`. A missing id yields
`.ok none`: the Go function returns `(nil, nil)` — a nil `*Recipe` together
with a nil error. -/
def getRecipeByID (s : Store) (rid : Nat) :
    Except DbError (Option (RecipeRow × List String)) :=
  match s.recipes.find? (fun r => r.id == rid) with
  | none => .ok none
  | some r => .ok (some (r, getIngredientDisplay s rid))

/-- The ingredient display list of the `GetAllRecipes` subquery
`array_agg(ri_s.quantity_text || ' ' || i_s.name ORDER BY ri_s.sort_order)`:
unlike `GetRecipeByID` it concatenates unconditionally. -/
def listIngredientDisplay (s : Store) (rid : Nat) : List String :=
  (recipeLinksSorted s rid).flatMap
    (fun l =>
      (s.ingredients.filter (fun i => i.id == l.ingredientId)).map
        (fun i => l.quantityText ++ " " ++ i.name))

/-- Models `r.search_vector @@ plainto_tsquery('english', $n)`; the
`search_vector` column is the precomputed text index over the recipe's name
and method. -/
def searchMatches (q : String) (r : RecipeRow) : Bool :=
  tsMatch (r.name ++ " " ++ r.method) q

/-- The free-text condition of `GetAllRecipes`: only added when the search
term is non-empty. -/
def searchCondHolds (q : String) (r : RecipeRow) : Bool :=
  q == "" || searchMatches q r

/-- Number of join rows one filter term contributes for one recipe: the
per-term `JOIN recipe_ingredients ri_fk ... JOIN ingredients i_fk ON ... AND
i_fk.normalized_name_tsvector @@ plainto_tsquery($n)` pairs. -/
def termJoinCount (s : Store) (rid : Nat) (t : String) : Nat :=
  ((s.links.filter (fun l => l.recipeId == rid)).map
    (fun l =>
      (s.ingredients.filter
        (fun i => i.id == l.ingredientId && tsMatch i.normalizedName t)).length)).sum

/-- Multiplicity of a recipe in the joined row set of `GetAllRecipes`: the
per-term joins multiply, and the `WHERE` search condition filters. -/
def joinMult (s : Store) (q : String) (filters : List String) (r : RecipeRow) : Nat :=
  if searchCondHolds q r then (filters.map (termJoinCount s r.id)).prod else 0

/-- The joined (pre-`ORDER BY`, pre-pagination) row set of the select and
count queries of `GetAllRecipes`, projected to the recipe columns. -/
def joinRows (s : Store) (q : String) (filters : List String) : List RecipeRow :=
  s.recipes.flatMap (fun r => List.replicate (joinMult s q filters r) r)

/-- Embeds `ORDER BY r.updated_at DESC` (ties keep a fixed order; SQL leaves them
unordered). -/
def sortByUpdatedDesc (rs : List RecipeRow) : List RecipeRow :=
  List.insertionSort (fun a b => b.updatedAt ≤ a.updatedAt) rs

/-- Embeds `GetAllRecipes` from `recipes_postgres.go`: page/pageSize guards, the
`COUNT(DISTINCT r.id)` count query over the same joins and conditions, the
early return on a zero count, and the paginated select with per-recipe
ingredient display lists. -/
def getAllRecipes (s : Store) (q : String) (filters : List String)
    (page pageSize : Nat) : List (RecipeRow × List String) × Nat :=
  let page := if page < 1 then 1 else page
  let pageSize := if pageSize < 1 then 10 else pageSize
  let totalCount := ((joinRows s q filters).map (fun r => r.id)).dedup.length
  if totalCount == 0 then ([], 0)
  else
    let pageRows :=
      ((sortByUpdatedDesc (joinRows s q filters)).drop ((page - 1) * pageSize)).take pageSize
    (pageRows.map (fun r => (r, listIngredientDisplay s r.id)), totalCount)

/-- A draft recipe submitted to `CreateRecipe` (`id := none` models the empty
ID string, for which the store generates a fresh one). -/
structure RecipeDraft where
  id : Option Nat
  name : String
  method : String
  photo : String
  ingredients : List String
deriving DecidableEq, Repr

/-- One iteration of the ingredient loop shared by `CreateRecipe` and
`UpdateRecipe`: split the line, normalize the name part, get or create the
ingredient by `name`, and insert the link row; inserting a second link for
the same `(recipe_id, ingredient_id)` pair violates the table's unique
constraint and errors. -/
def insertIngredientLine (s : Store) (rid : Nat) (idx : Nat) (line : String) :
    Except DbError Store :=
  let qtyName := extractIngredientNameParts line
  let norm := normalizeIngredientName qtyName.2
  let stepRes : Store × Nat :=
    match s.ingredients.find? (fun i => i.name == norm) with
    | some row => (s, row.id)
    | none =>
      ({ s with
          ingredients := s.ingredients ++
            [{ id := s.nextId, name := norm, normalizedName := dbNormalize norm,
               createdAt := s.now, updatedAt := s.now }],
          nextId := s.nextId + 1 }, s.nextId)
  let s1 := stepRes.1
  let iid := stepRes.2
  if s1.links.any (fun l => l.recipeId == rid && l.ingredientId == iid) then
    .error .uniqueViolation
  else
    .ok { s1 with
      links := s1.links ++
        [{ id := s1.nextId, recipeId := rid, ingredientId := iid,
           quantityText := qtyName.1, sortOrder := idx }],
      nextId := s1.nextId + 1 }

/-- The per-line ingredient loop (`for i, fullIngredientStr := range ...`). -/
def insertIngredientLines (s : Store) (rid : Nat) (idx : Nat) :
    List String → Except DbError Store
  | [] => .ok s
  | line :: rest =>
    match insertIngredientLine s rid idx line with
    | .error e => .error e
    | .ok s1 => insertIngredientLines s1 rid (idx + 1) rest

/-- Embeds `CreateRecipe` from `recipes_postgres.go`: assign an id when absent, set
timestamps, insert the recipe row, then run the ingredient loop — all in one
transaction. -/
def createRecipe (s : Store) (d : RecipeDraft) : Except DbError Store :=
  let ridStore : Nat × Store :=
    match d.id with
    | some i => (i, s)
    | none => (s.nextId, { s with nextId := s.nextId + 1 })
  let rid := ridStore.1
  let s0 := ridStore.2
  let row : RecipeRow :=
    { id := rid, name := d.name, method := d.method, photo := d.photo,
      createdAt := s0.now, updatedAt := s0.now }
  let s1 := { s0 with recipes := s0.recipes ++ [row], now := s0.now + 1 }
  insertIngredientLines s1 rid 0 d.ingredients

/-- Embeds `UpdateRecipe` from `recipes_postgres.go`: update the scalar columns
(`rowsAffected == 0` is the NotFound error), delete every existing link row
of the recipe, then re-run the ingredient loop — all in one transaction. -/
def updateRecipe (s : Store) (rid : Nat) (name method photo : String)
    (ingredientLines : List String) : Except DbError Store :=
  if s.recipes.any (fun r => r.id == rid) then
    let s1 := { s with
      recipes := s.recipes.map (fun (r : RecipeRow) =>
        if r.id == rid then
          { r with name := name, method := method, photo := photo, updatedAt := s.now }
        else r),
      now := s.now + 1 }
    let s2 := { s1 with links := s1.links.filter (fun l => !(l.recipeId == rid)) }
    insertIngredientLines s2 rid 0 ingredientLines
  else
    .error .recipeNotFound

/-- Embeds `DeleteRecipe` from `recipes_postgres.go`: delete the link rows, then the
recipe row; zero affected rows is only logged, the call still commits. -/
def deleteRecipe (s : Store) (rid : Nat) : Except DbError Store :=
  .ok { s with
    links := s.links.filter (fun l => !(l.recipeId == rid)),
    recipes := s.recipes.filter (fun r => !(r.id == rid)) }

/-- The store visible after `createRecipe`: on error the transaction rolled
back and the store is unchanged. -/
def applyCreate (s : Store) (d : RecipeDraft) : Store :=
  match createRecipe s d with
  | .ok s1 => s1
  | .error _ => s

/-- The store visible after `updateRecipe` (rollback on error). -/
def applyUpdate (s : Store) (rid : Nat) (name method photo : String)
    (ingredientLines : List String) : Store :=
  match updateRecipe s rid name method photo ingredientLines with
  | .ok s1 => s1
  | .error _ => s

/-- The store visible after `deleteRecipe` (rollback on error). -/
def applyDelete (s : Store) (rid : Nat) : Store :=
  match deleteRecipe s rid with
  | .ok s1 => s1
  | .error _ => s

/-- An ingredient of an imported bundle (`models.Ingredient` as read from the
JSON file; `normalizedName` is whatever the file carries). -/
structure BundleIngredient where
  id : Nat
  name : String
  normalizedName : String
deriving DecidableEq, Repr

/-- A recipe of an imported bundle. -/
structure BundleRecipe where
  id : Nat
  name : String
  method : String
  photo : String
deriving DecidableEq, Repr

/-- A recipe-ingredient link of an imported bundle (ids are the ids of the
originating store). -/
structure BundleLink where
  id : Nat
  recipeId : Nat
  ingredientId : Nat
  quantityText : String
  sortOrder : Nat
deriving DecidableEq, Repr

/-- Embeds `models.ExportedData`: the import/export bundle. -/
structure Bundle where
  recipes : List BundleRecipe
  ingredients : List BundleIngredient
  links : List BundleLink
deriving DecidableEq, Repr

/-- Lookup in an original-id-to-store-id map (Go `map[string]string`; the
front-inserted association list gives the same last-write-wins semantics). -/
def mapLookup (m : List (Nat × Nat)) (k : Nat) : Option Nat :=
  (m.find? (fun p => p.1 == k)).map (fun p => p.2)

/-- Map update (front insertion = overwrite on lookup). -/
def mapInsert (m : List (Nat × Nat)) (k v : Nat) : List (Nat × Nat) :=
  (k, v) :: m

/-- Embeds `getOrCreateIngredientTx`: look the ingredient up by the bundle's
`normalized_name`; when absent, insert it by `name` (the trigger recomputes
`normalized_name` from `name`), subject to `UNIQUE(ingredients.name)`. -/
def getOrCreateIngredientTx (s : Store) (ing : BundleIngredient) :
    Except DbError (Store × Nat) :=
  match s.ingredients.find? (fun row => row.normalizedName == ing.normalizedName) with
  | some row => .ok (s, row.id)
  | none =>
    if s.ingredients.any (fun row => row.name == ing.name) then
      .error .uniqueViolation
    else
      .ok ({ s with
        ingredients := s.ingredients ++
          [{ id := s.nextId, name := ing.name, normalizedName := dbNormalize ing.name,
             createdAt := s.now, updatedAt := s.now }],
        nextId := s.nextId + 1 }, s.nextId)

/-- Embeds `getOrCreateRecipeTx`: look the recipe up by name, insert when absent
(`recipes.name` carries no unique constraint, so this cannot fail). -/
def getOrCreateRecipeTx (s : Store) (rec : BundleRecipe) : Store × Nat :=
  match s.recipes.find? (fun row => row.name == rec.name) with
  | some row => (s, row.id)
  | none =>
    ({ s with
        recipes := s.recipes ++
          [{ id := s.nextId, name := rec.name, method := rec.method, photo := rec.photo,
             createdAt := s.now, updatedAt := s.now }],
        nextId := s.nextId + 1 }, s.nextId)

/-- Embeds `insertRecipeIngredientLinkTx`: translate the link's original ids through
the two maps (a miss is fatal), then `INSERT ... ON CONFLICT
(recipe_id, ingredient_id) DO NOTHING`. -/
def insertRecipeIngredientLinkTx (s : Store) (bl : BundleLink)
    (rMap iMap : List (Nat × Nat)) : Except DbError Store :=
  match mapLookup rMap bl.recipeId with
  | none => .error (.missingRecipeMapping bl.recipeId)
  | some rid =>
    match mapLookup iMap bl.ingredientId with
    | none => .error (.missingIngredientMapping bl.ingredientId)
    | some iid =>
      if s.links.any (fun l => l.recipeId == rid && l.ingredientId == iid) then
        .ok s
      else
        .ok { s with
          links := s.links ++
            [{ id := s.nextId, recipeId := rid, ingredientId := iid,
               quantityText := bl.quantityText, sortOrder := bl.sortOrder }],
          nextId := s.nextId + 1 }

/-- Phase 1 of `ImportRecipeDataBundle`: resolve or create every bundle
ingredient, building the original-id map. -/
def importIngredientsPhase (s : Store) (m : List (Nat × Nat)) :
    List BundleIngredient → Except DbError (Store × List (Nat × Nat))
  | [] => .ok (s, m)
  | ing :: rest =>
    match getOrCreateIngredientTx s ing with
    | .error e => .error e
    | .ok (s1, iid) => importIngredientsPhase s1 (mapInsert m ing.id iid) rest

/-- Phase 2 of `ImportRecipeDataBundle`: resolve or create every bundle
recipe. -/
def importRecipesPhase (s : Store) (m : List (Nat × Nat)) :
    List BundleRecipe → Store × List (Nat × Nat)
  | [] => (s, m)
  | rec :: rest =>
    let res := getOrCreateRecipeTx s rec
    importRecipesPhase res.1 (mapInsert m rec.id res.2) rest

/-- Phase 3 of `ImportRecipeDataBundle`: translate and insert every link. -/
def importLinksPhase (s : Store) (rMap iMap : List (Nat × Nat)) :
    List BundleLink → Except DbError Store
  | [] => .ok s
  | bl :: rest =>
    match insertRecipeIngredientLinkTx s bl rMap iMap with
    | .error e => .error e
    | .ok s1 => importLinksPhase s1 rMap iMap rest

/-- Embeds `ImportRecipeDataBundle` from `recipes_postgres.go`: ingredients, then
recipes, then links, inside one transaction. -/
def importBundle (s : Store) (b : Bundle) : Except DbError Store :=
  match importIngredientsPhase s [] b.ingredients with
  | .error e => .error e
  | .ok (sA, iMap) =>
    let res := importRecipesPhase sA [] b.recipes
    importLinksPhase res.1 res.2 iMap b.links

/-- The store visible after `importBundle` (rollback on error). -/
def importStore (s : Store) (b : Bundle) : Store :=
  match importBundle s b with
  | .ok s1 => s1
  | .error _ => s

/-- Outcomes of the HTTP update handler. `nilPointerDeref` is the runtime
panic of dereferencing the nil `*Recipe` returned by `GetRecipeByID` for a
missing id. -/
inductive UpdateHandlerResult where
  | badRequest
  | notFoundResp
  | serverError
  | nilPointerDeref
  | okResp
deriving DecidableEq, Repr

/-- Split on newline characters, Go `strings.Split(s, "\n")`. -/
def splitOnNewline (cs : List Char) : List (List Char) :=
  cs.foldr
    (fun c acc =>
      if c == '\n' then [] :: acc
      else
        match acc with
        | w :: rest => (c :: w) :: rest
        | [] => [[c]])
    [[]]

/-- The update handler's ingredient parsing: split the form field on
newlines, trim each line, keep the non-empty ones. -/
def parseIngredientLines (ingredientsStr : String) : List String :=
  if ingredientsStr == "" then []
  else
    ((splitOnNewline ingredientsStr.data).map (fun w => sTrim (String.mk w))).filter
      (fun t => !(t == ""))

/-- Embeds `handlers.UpdateRecipe` (`part_006`): fetch the existing recipe, then
`recipeToUpdate := *existingRecipe` — a nil pointer from `GetRecipeByID`
is dereferenced before any check, which is the `nilPointerDeref` outcome.
Multipart photo handling is modelled as "no new photo uploaded". -/
def updateRecipeHandler (s : Store) (rid : Nat) (name method ingredientsStr : String) :
    UpdateHandlerResult × Store :=
  match getRecipeByID s rid with
  | .error _ => (.serverError, s)
  | .ok none => (.nilPointerDeref, s)
  | .ok (some (existing, _)) =>
    if sTrim name == "" then (.badRequest, s)
    else if sTrim method == "" then (.badRequest, s)
    else
      match updateRecipe s rid name method existing.photo (parseIngredientLines ingredientsStr) with
      | .error DbError.recipeNotFound => (.notFoundResp, s)
      | .error _ => (.serverError, s)
      | .ok s1 => (.okResp, s1)

/-- Spec-side matching condition of the list operation, stated directly in
the spec's words ("same matching conditions, no projection, no pagination"):
the search condition holds and every filter term contributes at least one
joined ingredient. Used only to compare against the embedded SQL queries. -/
def specMatches (s : Store) (q : String) (filters : List String) (r : RecipeRow) : Bool :=
  searchCondHolds q r && filters.all (fun t => termJoinCount s r.id t != 0)

/-! ### General helper lemmas -/

theorem find?_append_left {α : Type} {l δ : List α} {p : α → Bool} {a : α}
    (h : l.find? p = some a) : (l ++ δ).find? p = some a := by
  rw [List.find?_append, h]; rfl

theorem find?_append_right {α : Type} {l δ : List α} {p : α → Bool}
    (h : l.find? p = none) : (l ++ δ).find? p = δ.find? p := by
  rw [List.find?_append, h]; rfl

/-! ### Demo stores shared by the witnesses -/

/-- A small populated store: Recipe1 links flour and egg, Recipe2 links flour
and milk. -/
def demoStore : Store :=
  { recipes := [⟨1, "Recipe1", "m", "", 0, 0⟩, ⟨2, "Recipe2", "m", "", 0, 1⟩],
    ingredients :=
      [⟨10, "flour", "flour", 0, 0⟩, ⟨11, "egg", "egg", 0, 0⟩,
       ⟨12, "milk", "milk", 0, 0⟩],
    links :=
      [⟨20, 1, 10, "", 0⟩, ⟨21, 1, 11, "", 1⟩,
       ⟨22, 2, 10, "", 0⟩, ⟨23, 2, 12, "", 1⟩],
    nextId := 30, now := 5 }

/-! ### C9 — delete is an idempotent no-op on a missing id, update is NotFound -/

/-- C9: for every id with no recipe row in the store (and links respecting the
foreign-key constraint of the schema), `DeleteRecipe` succeeds and leaves the
store unchanged, while `UpdateRecipe` fails with the NotFound error and also
changes nothing. -/
theorem delete_noop_update_notfound_on_missing_id (s : Store) (rid : Nat)
    (hmiss : ∀ r ∈ s.recipes, r.id ≠ rid)
    (hfk : ∀ l ∈ s.links, ∃ r ∈ s.recipes, r.id = l.recipeId) :
    deleteRecipe s rid = .ok s ∧ applyDelete s rid = s ∧
    ∀ name method photo lines,
      updateRecipe s rid name method photo lines = .error .recipeNotFound ∧
      applyUpdate s rid name method photo lines = s := by
  have hlinks : s.links.filter (fun l => !(l.recipeId == rid)) = s.links := by
    rw [List.filter_eq_self]
    intro l hl
    obtain ⟨r, hr, hid⟩ := hfk l hl
    have : l.recipeId ≠ rid := hid ▸ hmiss r hr
    simp [this]
  have hrecs : s.recipes.filter (fun r => !(r.id == rid)) = s.recipes := by
    rw [List.filter_eq_self]
    intro r hr
    have := hmiss r hr
    simp [this]
  have hdel : deleteRecipe s rid = .ok s := by
    simp only [deleteRecipe, hlinks, hrecs]
  have hany : s.recipes.any (fun r => r.id == rid) = false := by
    rw [List.any_eq_false]
    intro r hr
    simp [hmiss r hr]
  refine ⟨hdel, by simp [applyDelete, hdel], ?_⟩
  intro name method photo lines
  have hupd : updateRecipe s rid name method photo lines = .error .recipeNotFound := by
    simp only [updateRecipe, hany, Bool.false_eq_true, if_false]
  exact ⟨hupd, by simp [applyUpdate, hupd]⟩

/-- C9 witness: id 99 is not in the demo store; delete succeeds unchanged and
update returns NotFound. -/
theorem delete_noop_update_notfound_on_missing_id_witness :
    (∀ r ∈ demoStore.recipes, r.id ≠ 99) ∧
    (∀ l ∈ demoStore.links, ∃ r ∈ demoStore.recipes, r.id = l.recipeId) ∧
    (deleteRecipe demoStore 99 = .ok demoStore ∧ applyDelete demoStore 99 = demoStore ∧
     ∀ name method photo lines,
       updateRecipe demoStore 99 name method photo lines = .error .recipeNotFound ∧
       applyUpdate demoStore 99 name method photo lines = demoStore) :=
  ⟨by decide, by decide,
   delete_noop_update_notfound_on_missing_id demoStore 99 (by decide) (by decide)⟩

/-! ### C10 — GetRecipeByID signals a missing id as (nil, nil); the update
handler dereferences it -/

/-- C10: for every id with no recipe row, `GetRecipeByID` returns a nil recipe
pointer together with a nil error (`.ok none`), and the HTTP update handler,
which dereferences the returned pointer right after its error check, hits the
nil-pointer dereference instead of its NotFound branch. -/
theorem getRecipeByID_nil_nil_and_handler_deref (s : Store) (rid : Nat)
    (hmiss : ∀ r ∈ s.recipes, r.id ≠ rid) :
    getRecipeByID s rid = .ok none ∧
    (∀ name method ingredientsStr,
      (updateRecipeHandler s rid name method ingredientsStr).1 = .nilPointerDeref) ∧
    UpdateHandlerResult.nilPointerDeref ≠ UpdateHandlerResult.notFoundResp := by
  have hfind : s.recipes.find? (fun r => r.id == rid) = none := by
    rw [List.find?_eq_none]
    intro r hr
    simp [hmiss r hr]
  have hget : getRecipeByID s rid = .ok none := by
    simp only [getRecipeByID, hfind]
  refine ⟨hget, ?_, by decide⟩
  intro name method ingredientsStr
  simp only [updateRecipeHandler, hget]

/-- C10 witness: id 99 is not in the demo store; the fetch returns `.ok none`
and the handler dereferences the nil pointer. -/
theorem getRecipeByID_nil_nil_and_handler_deref_witness :
    (∀ r ∈ demoStore.recipes, r.id ≠ 99) ∧
    (getRecipeByID demoStore 99 = .ok none ∧
     (∀ name method ingredientsStr,
       (updateRecipeHandler demoStore 99 name method ingredientsStr).1 = .nilPointerDeref) ∧
     UpdateHandlerResult.nilPointerDeref ≠ UpdateHandlerResult.notFoundResp) :=
  ⟨by decide, getRecipeByID_nil_nil_and_handler_deref demoStore 99 (by decide)⟩

/-! ### C7 — ingredient display reconstruction on reads -/

theorem forall2_append {β γ : Type} {r : β → γ → Prop} {l₁ l₂ : List β} {m₁ m₂ : List γ}
    (h1 : List.Forall₂ r l₁ m₁) (h2 : List.Forall₂ r l₂ m₂) :
    List.Forall₂ r (l₁ ++ l₂) (m₁ ++ m₂) := by
  induction h1 with
  | nil => exact h2
  | cons hab _ ih => exact List.Forall₂.cons hab ih

theorem forall2_map {α β γ : Type} {r : β → γ → Prop} (xs : List α) (f : α → β) (g : α → γ)
    (h : ∀ x ∈ xs, r (f x) (g x)) : List.Forall₂ r (xs.map f) (xs.map g) := by
  induction xs with
  | nil => exact List.Forall₂.nil
  | cons x xs ih =>
    exact List.Forall₂.cons (h x (by simp)) (ih (fun y hy => h y (by simp [hy])))

theorem forall2_flatMap {α β γ : Type} {r : β → γ → Prop} (l : List α)
    (f : α → List β) (g : α → List γ) (h : ∀ a ∈ l, List.Forall₂ r (f a) (g a)) :
    List.Forall₂ r (l.flatMap f) (l.flatMap g) := by
  induction l with
  | nil => exact List.Forall₂.nil
  | cons a l ih =>
    simp only [List.flatMap_cons]
    exact forall2_append (h a (by simp)) (ih (fun b hb => h b (by simp [hb])))

theorem flatMap_congr_mem {α β : Type} {l : List α} {f g : α → List β}
    (h : ∀ a ∈ l, f a = g a) : l.flatMap f = l.flatMap g := by
  induction l with
  | nil => rfl
  | cons a l ih =>
    simp only [List.flatMap_cons]
    rw [h a (by simp), ih (fun b hb => h b (by simp [hb]))]

/-- A store holding one recipe created from the single-word ingredient line
"salt" (whose stored quantity text is empty). -/
def c7Store : Store := applyCreate emptyStore ⟨some 7, "Soup", "m", "", ["salt"]⟩

/-- C7 counterexample: the claim fails on the paginated list. For the recipe
created from the line "salt" (empty stored quantity text), `GetRecipeByID`
displays the line as the ingredient name alone, but `GetAllRecipes` — whose
subquery concatenates `quantity_text || ' ' || name` unconditionally —
displays it as `" salt"`, not as the name alone. -/
theorem list_display_empty_quantity_counterexample :
    getRecipeByID c7Store 7 = .ok (some (⟨7, "Soup", "m", "", 0, 0⟩, ["salt"])) ∧
    (getAllRecipes c7Store "" [] 1 10).1.map (fun p => p.2) = [[" salt"]] ∧
    (" salt" : String) ≠ "salt" := by
  refine ⟨by decide, by decide, by decide⟩

/-- C7 amended: read displays are ordered by `sort_order` ascending; the
single-recipe get renders `quantityText + " " + name` with the name alone for
an empty quantity, while the paginated list always renders the concatenation,
so each list entry equals the corresponding get entry except that an
empty-quantity line gains a leading space; when every stored quantity of the
recipe is non-empty the two displays coincide. -/
theorem display_reconstruction_amended (s : Store) (rid : Nat) :
    List.Sorted (fun a b : LinkRow => a.sortOrder ≤ b.sortOrder) (recipeLinksSorted s rid) ∧
    List.Forall₂ (fun a b => a = b ∨ a = " " ++ b)
      (listIngredientDisplay s rid) (getIngredientDisplay s rid) ∧
    ((∀ l ∈ s.links, l.recipeId = rid → l.quantityText ≠ "") →
      listIngredientDisplay s rid = getIngredientDisplay s rid) := by
  refine ⟨?_, ?_, ?_⟩
  · haveI : IsTotal LinkRow (fun a b : LinkRow => a.sortOrder ≤ b.sortOrder) :=
      ⟨fun a b => Nat.le_total a.sortOrder b.sortOrder⟩
    haveI : IsTrans LinkRow (fun a b : LinkRow => a.sortOrder ≤ b.sortOrder) :=
      ⟨fun _ _ _ h1 h2 => Nat.le_trans h1 h2⟩
    exact List.sorted_insertionSort _ _
  · apply forall2_flatMap
    intro l _
    apply forall2_map
    intro i _
    by_cases hq : l.quantityText = ""
    · right
      rw [if_pos (by simp [hq]), hq]
      rw [show ("" ++ " " : String) = " " from rfl]
    · left
      rw [if_neg (by simp [hq])]
  · intro hq
    apply flatMap_congr_mem
    intro l hl
    have hmem : l ∈ s.links.filter (fun l => l.recipeId == rid) :=
      ((List.perm_insertionSort _ _).mem_iff).mp hl
    have hrec : l.recipeId = rid := by
      have := (List.mem_filter.mp hmem).2
      simpa using this
    have hne : l.quantityText ≠ "" :=
      hq l (List.mem_filter.mp hmem).1 hrec
    apply List.map_congr_left
    intro i _
    rw [if_neg (by simp [hne])]

/-- A store whose single recipe has only non-empty quantity texts. -/
def c7bStore : Store :=
  { recipes := [⟨7, "Soup", "m", "", 0, 0⟩],
    ingredients := [⟨0, "stock", "stock", 0, 0⟩],
    links := [⟨1, 7, 0, "2 cups", 0⟩],
    nextId := 2, now := 1 }

/-- C7 amended witness: concrete instance of the display relation, and the
displays coincide on a store whose stored quantities are all non-empty. -/
theorem display_reconstruction_amended_witness :
    (List.Forall₂ (fun a b => a = b ∨ a = " " ++ b)
      (listIngredientDisplay c7Store 7) (getIngredientDisplay c7Store 7)) ∧
    (∀ l ∈ c7bStore.links, l.recipeId = 7 → l.quantityText ≠ "") ∧
    listIngredientDisplay c7bStore 7 = getIngredientDisplay c7bStore 7 :=
  ⟨(display_reconstruction_amended c7Store 7).2.1, by decide,
   (display_reconstruction_amended c7bStore 7).2.2 (by decide)⟩

/-! ### C6 — the in-process normalizer can return an empty result -/

/-- C6 counterexample: the line "12" is non-degenerate (its trim is
non-empty), yet `extractFilterableNames` returns the empty list: after
quantity stripping no words remain, so the documented fallback is never
reached. -/
theorem normalizer_empty_counterexample :
    extractFilterableNames "12" = [] ∧ sTrim "12" ≠ "" ∧
    extractFilterableNames "1/2" = [] := by
  refine ⟨by decide, by decide, by decide⟩

/-- C6 amended: the normalizer is a total, deterministic function (it is a
plain function of its input), and it yields a non-empty result whenever (a)
the trimmed input is non-empty, (b) at least one word survives the
quantity/unit/descriptor/stop-word stripping, and (c) the fallback string
(the lowercase-trimmed original with quantities removed) is longer than one
character. Lines consisting solely of quantity tokens fail (b) and yield the
empty list. -/
theorem extractFilterableNames_nonempty (full : String)
    (h0 : sTrim full ≠ "")
    (h1 : sFields (cleanedIngredientText full) ≠ [])
    (h2 : 1 < (fallbackIngredientText full).data.length) :
    extractFilterableNames full ≠ [] := by
  unfold extractFilterableNames
  rw [if_neg (by simp [h0])]
  simp only []
  set names := (sFields (cleanedIngredientText full)).foldl
    (fun acc word =>
      let cleanedWord := normalizeAndCleanToken word
      if commonStopWords.contains cleanedWord then acc
      else if cleanedWord.data.length > 2 then insertUnique acc cleanedWord
      else acc)
    (if (cleanedIngredientText full).data.length > 2 then [cleanedIngredientText full] else []) with hnames
  by_cases hc : (names.isEmpty && !(sFields (cleanedIngredientText full)).isEmpty) = true
  · rw [if_pos hc, if_pos (by omega)]
    simp
  · rw [if_neg hc]
    intro hnil
    apply hc
    rw [hnil]
    simp only [List.isEmpty_nil, Bool.true_and, Bool.not_eq_eq_eq_not, Bool.not_false]
    exact List.isEmpty_eq_false.mpr h1

/-- C6 amended witness: the line "salt" satisfies the three conditions and
yields a non-empty (in fact singleton) result. -/
theorem extractFilterableNames_nonempty_witness :
    sTrim "salt" ≠ "" ∧ sFields (cleanedIngredientText "salt") ≠ [] ∧
    1 < (fallbackIngredientText "salt").data.length ∧
    extractFilterableNames "salt" ≠ [] :=
  ⟨by decide, by decide, by decide,
   extractFilterableNames_nonempty "salt" (by decide) (by decide) (by decide)⟩

/-! ### C4 / C5 — the transactional writer's ingredient loop -/

/-- The canonical (stored) ingredient name of a submitted line: the
lowercased name part after the quantity split. -/
def normOfLine (line : String) : String :=
  normalizeIngredientName (extractIngredientNameParts line).2

/-- A default link row for indexed access. -/
def dummyLink : LinkRow := ⟨0, 0, 0, "", 0⟩

/-- What one successful loop iteration does to the store: recipes untouched,
ingredients possibly extended by the created row, and exactly one link row
appended whose quantity text and sort order come from the line; the link's
ingredient id resolves (by the get-or-create lookup key, `ingredients.name`)
to a row holding the line's canonical name. -/
theorem insertIngredientLine_spec {s s1 : Store} {rid idx : Nat} {line : String}
    (h : insertIngredientLine s rid idx line = .ok s1) :
    s1.recipes = s.recipes ∧
    (∃ δ, s1.ingredients = s.ingredients ++ δ) ∧
    ∃ iid lid,
      s1.links = s.links ++
        [⟨lid, rid, iid, (extractIngredientNameParts line).1, idx⟩] ∧
      ∃ row, s1.ingredients.find? (fun i => i.name == normOfLine line) = some row ∧
        row.id = iid := by
  simp only [insertIngredientLine] at h
  cases hf : s.ingredients.find?
      (fun i => i.name == normalizeIngredientName (extractIngredientNameParts line).2) with
  | some row =>
    rw [hf] at h
    simp only [] at h
    split at h
    · exact absurd h (by simp)
    · injection h with h1
      subst h1
      refine ⟨rfl, ⟨[], by simp⟩, row.id, s.nextId, by simp, row, ?_, rfl⟩
      simpa [normOfLine] using hf
  | none =>
    rw [hf] at h
    simp only [] at h
    split at h
    · exact absurd h (by simp)
    · injection h with h1
      subst h1
      refine ⟨rfl, ⟨_, rfl⟩, s.nextId, s.nextId + 1, by simp, ?_⟩
      refine ⟨{ id := s.nextId,
                name := normalizeIngredientName (extractIngredientNameParts line).2,
                normalizedName :=
                  dbNormalize (normalizeIngredientName (extractIngredientNameParts line).2),
                createdAt := s.now, updatedAt := s.now }, ?_, rfl⟩
      rw [show normOfLine line =
          normalizeIngredientName (extractIngredientNameParts line).2 from rfl]
      rw [find?_append_right hf]
      simp [List.find?]

/-- When the working store already links this recipe to the ingredient the
line's canonical name resolves to, the link insert violates the
`UNIQUE(recipe_id, ingredient_id)` constraint. -/
theorem insertIngredientLine_conflict {s : Store} {rid idx : Nat} {line : String}
    {row : IngredientRow}
    (hf : s.ingredients.find? (fun i => i.name == normOfLine line) = some row)
    (hl : ∃ x ∈ s.links, x.recipeId = rid ∧ x.ingredientId = row.id) :
    insertIngredientLine s rid idx line = .error .uniqueViolation := by
  simp only [insertIngredientLine]
  rw [show (fun (i : IngredientRow) =>
      i.name == normalizeIngredientName (extractIngredientNameParts line).2) =
      (fun (i : IngredientRow) => i.name == normOfLine line) from rfl]
  rw [hf]
  simp only []
  rw [if_pos ?_]
  rw [List.any_eq_true]
  obtain ⟨x, hx, h1, h2⟩ := hl
  exact ⟨x, hx, by simp [h1, h2]⟩

/-- The loop invariant of the duplicate-line argument: the store already
resolves canonical name `n` to an ingredient that is linked to the recipe. -/
def LinkedName (s : Store) (rid : Nat) (n : String) : Prop :=
  ∃ row, s.ingredients.find? (fun i => i.name == n) = some row ∧
    ∃ x ∈ s.links, x.recipeId = rid ∧ x.ingredientId = row.id

/-- One successful loop iteration preserves `LinkedName` (stores only grow). -/
theorem linkedName_mono {s s1 : Store} {rid idx : Nat} {line : String} {n : String}
    (h : insertIngredientLine s rid idx line = .ok s1)
    (hinv : LinkedName s rid n) : LinkedName s1 rid n := by
  obtain ⟨row, hf, x, hx, h1, h2⟩ := hinv
  obtain ⟨-, ⟨δ, hing⟩, iid, lid, hlinks, -⟩ := insertIngredientLine_spec h
  exact ⟨row, by rw [hing]; exact find?_append_left hf,
    x, by rw [hlinks]; exact List.mem_append_left _ hx, h1, h2⟩

/-- One successful loop iteration establishes `LinkedName` for its own line. -/
theorem linkedName_establish {s s1 : Store} {rid idx : Nat} {line : String}
    (h : insertIngredientLine s rid idx line = .ok s1) :
    LinkedName s1 rid (normOfLine line) := by
  obtain ⟨-, -, iid, lid, hlinks, row, hf, hid⟩ := insertIngredientLine_spec h
  exact ⟨row, hf, ⟨lid, rid, iid, (extractIngredientNameParts line).1, idx⟩,
    by rw [hlinks]; simp, rfl, by simp [hid]⟩

/-- Once `LinkedName` holds for a canonical name that still occurs among the
remaining lines, the loop must fail with the unique-link violation. -/
theorem insertIngredientLines_err_of_linkedName :
    ∀ (lines : List String) (s : Store) (rid idx : Nat) (n : String),
    LinkedName s rid n → n ∈ lines.map normOfLine →
    ∃ e, insertIngredientLines s rid idx lines = .error e := by
  intro lines
  induction lines with
  | nil => intro s rid idx n _ hmem; simp at hmem
  | cons line rest ih =>
    intro s rid idx n hinv hmem
    simp only [insertIngredientLines]
    by_cases heq : normOfLine line = n
    · subst heq
      obtain ⟨row, hf, hl⟩ := hinv
      rw [insertIngredientLine_conflict hf hl]
      exact ⟨.uniqueViolation, rfl⟩
    · have hmem2 : n ∈ rest.map normOfLine := by
        rcases List.mem_map.mp hmem with ⟨l2, hl2, he2⟩
        rcases List.mem_cons.mp hl2 with h2 | h2
        · exact absurd (h2 ▸ he2) heq
        · exact List.mem_map.mpr ⟨l2, h2, he2⟩
      cases hstep : insertIngredientLine s rid idx line with
      | error e => exact ⟨e, rfl⟩
      | ok s2 => exact ih s2 rid (idx + 1) n (linkedName_mono hstep hinv) hmem2

/-- When two submitted lines share a canonical name, the loop fails. -/
theorem insertIngredientLines_err_of_dup :
    ∀ (lines : List String) (s : Store) (rid idx : Nat),
    ¬ (lines.map normOfLine).Nodup →
    ∃ e, insertIngredientLines s rid idx lines = .error e := by
  intro lines
  induction lines with
  | nil => intro s rid idx hdup; exact absurd List.nodup_nil hdup
  | cons line rest ih =>
    intro s rid idx hdup
    simp only [insertIngredientLines]
    by_cases hmem : normOfLine line ∈ rest.map normOfLine
    · cases hstep : insertIngredientLine s rid idx line with
      | error e => exact ⟨e, rfl⟩
      | ok s2 =>
        exact insertIngredientLines_err_of_linkedName rest s2 rid (idx + 1) _
          (linkedName_establish hstep) hmem
    · have hdup2 : ¬ (rest.map normOfLine).Nodup := by
        intro hn
        apply hdup
        rw [List.map_cons]
        exact List.nodup_cons.mpr ⟨hmem, hn⟩
      cases hstep : insertIngredientLine s rid idx line with
      | error e => exact ⟨e, rfl⟩
      | ok s2 => exact ih s2 rid (idx + 1) hdup2

/-- C4: recipe creation is all-or-nothing. Whenever any step of
`CreateRecipe` fails, the transaction rolls back: the visible store is
unchanged and every subsequent read sees exactly what it saw before. In
particular, when two submitted lines normalize to the same canonical
ingredient name, the call does fail (with the unique-link constraint
violation as the code's own comment documents). -/
theorem createRecipe_all_or_nothing (s : Store) (d : RecipeDraft) :
    (∀ e, createRecipe s d = .error e →
      applyCreate s d = s ∧
      (∀ rid, getRecipeByID (applyCreate s d) rid = getRecipeByID s rid) ∧
      (∀ q f page ps, getAllRecipes (applyCreate s d) q f page ps =
        getAllRecipes s q f page ps)) ∧
    (¬ (d.ingredients.map normOfLine).Nodup →
      ∃ e, createRecipe s d = .error e) := by
  constructor
  · intro e he
    have happ : applyCreate s d = s := by simp [applyCreate, he]
    exact ⟨happ, fun rid => by rw [happ], fun q f page ps => by rw [happ]⟩
  · intro hdup
    obtain ⟨e, he⟩ := insertIngredientLines_err_of_dup d.ingredients _ _ 0 hdup
    exact ⟨e, by simp only [createRecipe]; exact he⟩

/-- The draft of the C4 witness: two lines with the same canonical name
("cups flour" both times, since only the first token is split off as the
quantity). -/
def c4Draft : RecipeDraft :=
  ⟨some 5, "Pancakes", "mix", "", ["2 cups flour", "3 cups flour"]⟩

/-- C4 witness: the duplicate-normalizing draft makes `createRecipe` fail and
leaves the empty store unchanged. -/
theorem createRecipe_all_or_nothing_witness :
    (¬ (c4Draft.ingredients.map normOfLine).Nodup) ∧
    (∃ e, createRecipe emptyStore c4Draft = .error e) ∧
    createRecipe emptyStore c4Draft = .error .uniqueViolation ∧
    applyCreate emptyStore c4Draft = emptyStore :=
  ⟨by decide, (createRecipe_all_or_nothing emptyStore c4Draft).2 (by decide),
   by decide, by decide⟩

/-- What the whole loop does on success: one link row per line, appended in
order, with `sortOrder` equal to the line's position (offset by the starting
index), the quantity text of the split, and an ingredient id resolving to a
row holding the line's canonical name. -/
theorem insertIngredientLines_spec :
    ∀ (lines : List String) (s : Store) (rid idx : Nat) (s1 : Store),
    insertIngredientLines s rid idx lines = .ok s1 →
    s1.recipes = s.recipes ∧
    (∃ δ, s1.ingredients = s.ingredients ++ δ) ∧
    ∃ new, s1.links = s.links ++ new ∧
      new.length = lines.length ∧
      (∀ x ∈ new, x.recipeId = rid) ∧
      ∀ k, k < lines.length →
        (new.getD k dummyLink).sortOrder = idx + k ∧
        (new.getD k dummyLink).quantityText =
          (extractIngredientNameParts (lines.getD k "")).1 ∧
        ∃ row, row ∈ s1.ingredients ∧
          row.id = (new.getD k dummyLink).ingredientId ∧
          row.name = normOfLine (lines.getD k "") := by
  intro lines
  induction lines with
  | nil =>
    intro s rid idx s1 h
    simp only [insertIngredientLines] at h
    injection h with h1
    subst h1
    exact ⟨rfl, ⟨[], by simp⟩, [], by simp, rfl, by simp, fun k hk => absurd hk (by simp)⟩
  | cons line rest ih =>
    intro s rid idx s1 h
    simp only [insertIngredientLines] at h
    cases hstep : insertIngredientLine s rid idx line with
    | error e => rw [hstep] at h; exact absurd h (by simp)
    | ok s2 =>
      rw [hstep] at h
      simp only [] at h
      obtain ⟨hrec2, ⟨δ2, hing2⟩, hnew2⟩ := ih s2 rid (idx + 1) s1 h
      obtain ⟨hrec1, ⟨δ1, hing1⟩, iid, lid, hlinks1, row0, hfind0, hid0⟩ :=
        insertIngredientLine_spec hstep
      obtain ⟨new2, hlinks2, hlen2, hrid2, hidx2⟩ := hnew2
      refine ⟨by rw [hrec2, hrec1], ⟨δ1 ++ δ2, by rw [hing2, hing1, List.append_assoc]⟩,
        ⟨lid, rid, iid, (extractIngredientNameParts line).1, idx⟩ :: new2,
        by rw [hlinks2, hlinks1]; simp, by simp [hlen2], ?_, ?_⟩
      · intro x hx
        rcases List.mem_cons.mp hx with h2 | h2
        · rw [h2]
        · exact hrid2 x h2
      · intro k hk
        cases k with
        | zero =>
          refine ⟨by simp, by simp, row0, ?_, by simpa using hid0, ?_⟩
          · rw [hing2]
            exact List.mem_append_left _ (List.mem_of_find?_eq_some hfind0)
          · have := List.find?_some hfind0
            simpa using this
        | succ k =>
          have hk2 : k < rest.length := by simpa using hk
          obtain ⟨ha, hb, hc⟩ := hidx2 k hk2
          exact ⟨by simpa [Nat.add_assoc, Nat.add_comm 1 k] using ha, by simpa using hb,
            by simpa using hc⟩

/-- filtering back what an opposite filter removed yields nothing. -/
theorem filter_not_filter_nil (base : List LinkRow) (rid : Nat) :
    (base.filter (fun l => !(l.recipeId == rid))).filter
      (fun l => l.recipeId == rid) = [] := by
  rw [List.filter_filter]
  simp [Bool.and_not_self]

/-- C5: a successful update fully replaces the recipe's link set — the link
rows of the recipe afterwards are exactly one per submitted line, in order,
with `sortOrder` equal to the line's position, the split-off quantity text,
and an ingredient holding the line's canonical name; no stale link survives
(the link count equals the number of submitted lines). -/
theorem updateRecipe_replaces_links {s s1 : Store} {rid : Nat}
    {name method photo : String} {lines : List String}
    (h : updateRecipe s rid name method photo lines = .ok s1) :
    (s1.links.filter (fun l => l.recipeId == rid)).length = lines.length ∧
    ∀ k, k < lines.length →
      ((s1.links.filter (fun l => l.recipeId == rid)).getD k dummyLink).sortOrder = k ∧
      ((s1.links.filter (fun l => l.recipeId == rid)).getD k dummyLink).quantityText =
        (extractIngredientNameParts (lines.getD k "")).1 ∧
      ∃ row, row ∈ s1.ingredients ∧
        row.id = ((s1.links.filter (fun l => l.recipeId == rid)).getD k
          dummyLink).ingredientId ∧
        row.name = normOfLine (lines.getD k "") := by
  simp only [updateRecipe] at h
  split at h
  · obtain ⟨-, -, new, hlinks, hlen, hrid, hidx⟩ :=
      insertIngredientLines_spec lines _ rid 0 s1 h
    have hfilter : s1.links.filter (fun l => l.recipeId == rid) = new := by
      rw [hlinks]
      rw [List.filter_append]
      rw [filter_not_filter_nil]
      rw [List.nil_append]
      exact List.filter_eq_self.mpr (fun x hx => by simp [hrid x hx])
    rw [hfilter]
    refine ⟨hlen, fun k hk => ?_⟩
    obtain ⟨ha, hb, hc⟩ := hidx k hk
    exact ⟨by simpa using ha, hb, hc⟩
  · exact absurd h (by simp)

/-- A store holding one recipe created from two ingredient lines. -/
def c5Store : Store :=
  applyCreate emptyStore ⟨some 7, "Soup", "m", "", ["2 cups stock", "1 onion, diced"]⟩

/-- The store after updating that recipe with a strict subset of its lines. -/
def c5After : Store := applyUpdate c5Store 7 "Soup" "m" "" ["2 cups stock"]

/-- C5 witness: after updating the two-line recipe down to one line, exactly
one link row remains, with sort order 0 and the submitted quantity text. -/
theorem updateRecipe_replaces_links_witness :
    updateRecipe c5Store 7 "Soup" "m" "" ["2 cups stock"] = .ok c5After ∧
    (c5After.links.filter (fun l => l.recipeId == 7)).length = 1 ∧
    ((c5After.links.filter (fun l => l.recipeId == 7)).getD 0 dummyLink).sortOrder = 0 ∧
    ((c5After.links.filter (fun l => l.recipeId == 7)).getD 0 dummyLink).quantityText = "2" :=
  ⟨by decide,
   (@updateRecipe_replaces_links c5Store c5After 7 "Soup" "m" "" ["2 cups stock"]
     (by decide)).1,
   ((@updateRecipe_replaces_links c5Store c5After 7 "Soup" "m" "" ["2 cups stock"]
     (by decide)).2 0 (by decide)).1,
   ((@updateRecipe_replaces_links c5Store c5After 7 "Soup" "m" "" ["2 cups stock"]
     (by decide)).2 0 (by decide)).2.1⟩

/-! ### C1 / C8 — the filter/search query builder -/

/-- A filter term contributes a join row for a recipe exactly when the recipe
has at least one linked ingredient whose canonical name matches the term. -/
theorem termJoinCount_ne_zero_iff (s : Store) (rid : Nat) (t : String) :
    termJoinCount s rid t ≠ 0 ↔
      ∃ l ∈ s.links, l.recipeId = rid ∧
        ∃ i ∈ s.ingredients, i.id = l.ingredientId ∧
          tsMatch i.normalizedName t = true := by
  unfold termJoinCount
  rw [Ne, List.sum_eq_zero_iff]
  push_neg
  constructor
  · rintro ⟨x, hx, hxne⟩
    rcases List.mem_map.mp hx with ⟨l, hl, hlen⟩
    have hlmem := List.mem_filter.mp hl
    have : (s.ingredients.filter
        (fun i => i.id == l.ingredientId && tsMatch i.normalizedName t)) ≠ [] := by
      intro hnil
      rw [← hlen, hnil] at hxne
      exact hxne rfl
    rcases List.exists_mem_of_ne_nil _ this with ⟨i, hi⟩
    have himem := List.mem_filter.mp hi
    refine ⟨l, hlmem.1, by simpa using hlmem.2, i, himem.1, ?_, ?_⟩
    · have := himem.2
      simp only [Bool.and_eq_true, beq_iff_eq] at this
      exact this.1
    · have := himem.2
      simp only [Bool.and_eq_true, beq_iff_eq] at this
      exact this.2
  · rintro ⟨l, hl, hrid, i, hi, hid, hts⟩
    refine ⟨(s.ingredients.filter
        (fun x => x.id == l.ingredientId && tsMatch x.normalizedName t)).length,
      List.mem_map.mpr ⟨l, List.mem_filter.mpr ⟨hl, by simpa using hrid⟩, rfl⟩, ?_⟩
    intro h0
    rw [List.length_eq_zero] at h0
    have : i ∈ s.ingredients.filter
        (fun x => x.id == l.ingredientId && tsMatch x.normalizedName t) :=
      List.mem_filter.mpr ⟨hi, by simp [hid, hts]⟩
    rw [h0] at this
    exact absurd this (List.not_mem_nil i)

/-- Membership in the joined row set: the recipe passes the search condition
and every filter term contributes at least one join row. -/
theorem mem_joinRows_iff (s : Store) (q : String) (filters : List String)
    (r : RecipeRow) :
    r ∈ joinRows s q filters ↔
      r ∈ s.recipes ∧ searchCondHolds q r = true ∧
        ∀ t ∈ filters, termJoinCount s r.id t ≠ 0 := by
  unfold joinRows
  rw [List.mem_flatMap]
  constructor
  · rintro ⟨r2, hr2, hrep⟩
    obtain ⟨hne, heq⟩ := List.mem_replicate.mp hrep
    subst heq
    unfold joinMult at hne
    by_cases hsc : searchCondHolds q r = true
    · rw [if_pos hsc] at hne
      refine ⟨hr2, hsc, fun t ht h0 => hne ?_⟩
      rw [List.prod_eq_zero_iff]
      exact List.mem_map.mpr ⟨t, ht, h0⟩
    · rw [if_neg hsc] at hne
      exact absurd rfl hne
  · rintro ⟨hr, hsc, hall⟩
    refine ⟨r, hr, List.mem_replicate.mpr ⟨?_, rfl⟩⟩
    unfold joinMult
    rw [if_pos hsc]
    intro h0
    rw [List.prod_eq_zero_iff] at h0
    rcases List.mem_map.mp h0 with ⟨t, ht, hcount⟩
    exact hall t ht hcount

theorem perm_toFinset {α : Type} [DecidableEq α] {l l2 : List α}
    (h : List.Perm l l2) : l.toFinset = l2.toFinset :=
  Finset.ext (fun x => by simp only [List.mem_toFinset]; exact h.mem_iff)

/-- The first component of `getAllRecipes` (when the guards pass) is the
sorted join rows paginated and paired with their display lists. -/
theorem getAllRecipes_fst (s : Store) (q : String) (filters : List String)
    (page pageSize : Nat) (hpage1 : 1 ≤ page) (hps1 : 1 ≤ pageSize) :
    (getAllRecipes s q filters page pageSize).1 =
      (((sortByUpdatedDesc (joinRows s q filters)).drop ((page - 1) * pageSize)).take
        pageSize).map (fun r => (r, listIngredientDisplay s r.id)) := by
  simp only [getAllRecipes]
  rw [if_neg (show ¬ (page < 1) from by omega),
    if_neg (show ¬ (pageSize < 1) from by omega)]
  split
  next h0 =>
    have hjoin : joinRows s q filters = [] := by
      have h1 : ((joinRows s q filters).map (fun r => r.id)).dedup.length = 0 := by
        simpa using h0
      have h2 := (List.dedup_eq_nil ((joinRows s q filters).map (fun r => r.id))).mp
        (List.length_eq_zero.mp h1)
      exact List.map_eq_nil_iff.mp h2
    rw [hjoin]
    simp [sortByUpdatedDesc]
  next h0 => rfl

/-- The second component of `getAllRecipes` is always the distinct-id count
of the joined row set (`COUNT(DISTINCT r.id)`), independent of the page. -/
theorem getAllRecipes_snd (s : Store) (q : String) (filters : List String)
    (page pageSize : Nat) :
    (getAllRecipes s q filters page pageSize).2 =
      ((joinRows s q filters).map (fun r => r.id)).dedup.length := by
  simp only [getAllRecipes]
  split
  next h0 => simpa using (by simpa using h0 : _ = 0).symm
  next h0 => rfl

/-- The Bool `specMatches` unfolded to its propositional content. -/
theorem specMatches_iff (s : Store) (q : String) (filters : List String)
    (r : RecipeRow) :
    specMatches s q filters r = true ↔
      searchCondHolds q r = true ∧ ∀ t ∈ filters, termJoinCount s r.id t ≠ 0 := by
  unfold specMatches
  rw [Bool.and_eq_true, List.all_eq_true]
  constructor
  · rintro ⟨h1, h2⟩
    exact ⟨h1, fun t ht => by simpa using h2 t ht⟩
  · rintro ⟨h1, h2⟩
    exact ⟨h1, fun t ht => by simpa using h2 t ht⟩

/-- The ids occurring in the joined row set are exactly the ids of the
recipes satisfying the matching conditions. -/
theorem joinRows_toFinset (s : Store) (q : String) (filters : List String) :
    ((joinRows s q filters).map (fun r => r.id)).toFinset =
      ((s.recipes.filter (specMatches s q filters)).map (fun r => r.id)).toFinset := by
  apply Finset.ext
  intro x
  simp only [List.mem_toFinset, List.mem_map]
  constructor
  · rintro ⟨r, hr, hid⟩
    rw [mem_joinRows_iff] at hr
    exact ⟨r, List.mem_filter.mpr ⟨hr.1, (specMatches_iff _ _ _ _).mpr hr.2⟩, hid⟩
  · rintro ⟨r, hr, hid⟩
    have hm := List.mem_filter.mp hr
    have := (specMatches_iff s q filters r).mp hm.2
    exact ⟨r, (mem_joinRows_iff s q filters r).mpr ⟨hm.1, this⟩, hid⟩

/-- C1: ingredient filter terms use AND semantics. For every store and
non-empty filter-term list (no search term), a recipe appears in the list
operation's result (page 1, with a page size that accommodates the whole
joined row set) if and only if, for every term, the recipe has at least one
linked ingredient whose canonical name matches that term. -/
theorem ingredient_filters_and_semantics (s : Store) (filters : List String)
    (r : RecipeRow) (pageSize : Nat)
    (hne : filters ≠ [])
    (hps1 : 1 ≤ pageSize)
    (hps : (joinRows s "" filters).length ≤ pageSize) :
    r ∈ (getAllRecipes s "" filters 1 pageSize).1.map (fun p => p.1) ↔
      r ∈ s.recipes ∧
      ∀ t ∈ filters, ∃ l ∈ s.links, l.recipeId = r.id ∧
        ∃ i ∈ s.ingredients, i.id = l.ingredientId ∧
          tsMatch i.normalizedName t = true := by
  rw [getAllRecipes_fst s "" filters 1 pageSize (by omega) hps1]
  have hlen : (sortByUpdatedDesc (joinRows s "" filters)).length ≤ pageSize := by
    have := (List.perm_insertionSort
      (fun a b : RecipeRow => b.updatedAt ≤ a.updatedAt) (joinRows s "" filters)).length_eq
    unfold sortByUpdatedDesc
    omega
  rw [show (1 - 1) * pageSize = 0 from by omega, List.drop_zero,
    List.take_of_length_le hlen, List.map_map]
  have hmem : r ∈ (sortByUpdatedDesc (joinRows s "" filters)).map
      ((fun p : RecipeRow × List String => p.1) ∘ (fun r => (r, listIngredientDisplay s r.id))) ↔
      r ∈ joinRows s "" filters := by
    rw [show ((fun p : RecipeRow × List String => p.1) ∘
        (fun r : RecipeRow => (r, listIngredientDisplay s r.id))) = id from rfl]
    rw [List.map_id]
    exact (List.perm_insertionSort _ _).mem_iff
  rw [hmem, mem_joinRows_iff]
  constructor
  · rintro ⟨hr, -, hall⟩
    exact ⟨hr, fun t ht => (termJoinCount_ne_zero_iff s r.id t).mp (hall t ht)⟩
  · rintro ⟨hr, hall⟩
    exact ⟨hr, by simp [searchCondHolds],
      fun t ht => (termJoinCount_ne_zero_iff s r.id t).mpr (hall t ht)⟩

/-- C1 witness: in the demo store (Recipe1 = flour+egg, Recipe2 = flour+milk)
the filter list [flour, egg] matches Recipe1 — and the evaluated page contains
only Recipe1. -/
theorem ingredient_filters_and_semantics_witness :
    (["flour", "egg"] ≠ ([] : List String)) ∧
    1 ≤ 10 ∧ (joinRows demoStore "" ["flour", "egg"]).length ≤ 10 ∧
    ((⟨1, "Recipe1", "m", "", 0, 0⟩ : RecipeRow) ∈
        (getAllRecipes demoStore "" ["flour", "egg"] 1 10).1.map (fun p => p.1) ↔
      (⟨1, "Recipe1", "m", "", 0, 0⟩ : RecipeRow) ∈ demoStore.recipes ∧
      ∀ t ∈ ["flour", "egg"], ∃ l ∈ demoStore.links, l.recipeId = 1 ∧
        ∃ i ∈ demoStore.ingredients, i.id = l.ingredientId ∧
          tsMatch i.normalizedName t = true) ∧
    (getAllRecipes demoStore "" ["flour", "egg"] 1 10).1.map (fun p => p.1.id) = [1] :=
  ⟨by decide, by decide, by decide,
   ingredient_filters_and_semantics demoStore ["flour", "egg"]
     ⟨1, "Recipe1", "m", "", 0, 0⟩ 10 (by decide) (by decide) (by decide),
   by decide⟩

/-- Concatenating the first `P` pagination chunks of a list recovers its
first `P * pageSize` elements. -/
theorem chunks_concat {α : Type} (l : List α) (ps : Nat) :
    ∀ P : Nat, (List.range P).flatMap (fun p => (l.drop (p * ps)).take ps) =
      l.take (P * ps) := by
  intro P
  induction P with
  | zero => simp
  | succ P ih =>
    rw [List.range_succ]
    simp only [List.flatMap_append, List.flatMap_cons, List.flatMap_nil, List.append_nil]
    rw [ih, ← List.take_add, Nat.succ_mul]

/-- C8: the total count returned by the list operation equals the exact
number of distinct recipe ids satisfying the same matching conditions as the
select query (for every search term, filter list, page and page size), and
the set of distinct recipe ids returned across all pages equals the set of
matching recipe ids — so their number equals the reported total. -/
theorem total_count_exact (s : Store) (q : String) (filters : List String)
    (page pageSize P : Nat) (hps1 : 1 ≤ pageSize)
    (hP : (joinRows s q filters).length ≤ P * pageSize) :
    (getAllRecipes s q filters page pageSize).2 =
      ((s.recipes.filter (specMatches s q filters)).map (fun r => r.id)).dedup.length ∧
    ((List.range P).flatMap
        (fun p => (getAllRecipes s q filters (p + 1) pageSize).1.map
          (fun e => e.1.id))).toFinset =
      ((s.recipes.filter (specMatches s q filters)).map (fun r => r.id)).toFinset := by
  have hsortlen : (sortByUpdatedDesc (joinRows s q filters)).length =
      (joinRows s q filters).length :=
    (List.perm_insertionSort _ _).length_eq
  have hsortperm : List.Perm (sortByUpdatedDesc (joinRows s q filters))
      (joinRows s q filters) := List.perm_insertionSort _ _
  constructor
  · rw [getAllRecipes_snd]
    have h1 := joinRows_toFinset s q filters
    have h2 := congrArg Finset.card h1
    rw [List.card_toFinset, List.card_toFinset] at h2
    exact h2
  · have hpages : ∀ p : Nat,
        (getAllRecipes s q filters (p + 1) pageSize).1.map (fun e => e.1.id) =
        (((sortByUpdatedDesc (joinRows s q filters)).drop (p * pageSize)).take
          pageSize).map (fun r => r.id) := by
      intro p
      rw [getAllRecipes_fst s q filters (p + 1) pageSize (by omega) hps1]
      rw [List.map_map]
      rfl
    have hbind : (List.range P).flatMap
        (fun p => (getAllRecipes s q filters (p + 1) pageSize).1.map
          (fun e => e.1.id)) =
        ((List.range P).flatMap
          (fun p => ((sortByUpdatedDesc (joinRows s q filters)).drop
            (p * pageSize)).take pageSize)).map (fun r => r.id) := by
      rw [List.map_flatMap]
      exact List.flatMap_congr (fun p _ => by rw [hpages p])
    rw [hbind, chunks_concat, List.take_of_length_le (by omega)]
    calc ((sortByUpdatedDesc (joinRows s q filters)).map (fun r => r.id)).toFinset
        = ((joinRows s q filters).map (fun r => r.id)).toFinset :=
          perm_toFinset (hsortperm.map _)
      _ = _ := joinRows_toFinset s q filters

/-- C8 witness: in the demo store with filter [flour], the reported total is
2 and the distinct ids across two single-row pages are exactly the two
matching recipes. -/
theorem total_count_exact_witness :
    1 ≤ 1 ∧ (joinRows demoStore "" ["flour"]).length ≤ 2 * 1 ∧
    ((getAllRecipes demoStore "" ["flour"] 1 1).2 =
      ((demoStore.recipes.filter (specMatches demoStore "" ["flour"])).map
        (fun r => r.id)).dedup.length ∧
     ((List.range 2).flatMap
        (fun p => (getAllRecipes demoStore "" ["flour"] (p + 1) 1).1.map
          (fun e => e.1.id))).toFinset =
      ((demoStore.recipes.filter (specMatches demoStore "" ["flour"])).map
        (fun r => r.id)).toFinset) ∧
    (getAllRecipes demoStore "" ["flour"] 1 1).2 = 2 :=
  ⟨by decide, by decide,
   total_count_exact demoStore "" ["flour"] 1 1 2 (by decide) (by decide),
   by decide⟩

/-! ### C2 / C3 — the bundle merger -/

theorem getOrCreateIngredientTx_ext {s s1 : Store} {ing : BundleIngredient} {iid : Nat}
    (h : getOrCreateIngredientTx s ing = .ok (s1, iid)) :
    s1.recipes = s.recipes ∧ s1.links = s.links ∧
    ∃ δ, s1.ingredients = s.ingredients ++ δ := by
  simp only [getOrCreateIngredientTx] at h
  cases hf : s.ingredients.find? (fun row => row.normalizedName == ing.normalizedName) with
  | some row =>
    rw [hf] at h
    simp only [] at h
    injection h with h1
    injection h1 with hA hB
    subst hA
    exact ⟨rfl, rfl, [], by simp⟩
  | none =>
    rw [hf] at h
    simp only [] at h
    split at h
    · exact absurd h (by simp)
    · injection h with h1
      injection h1 with hA hB
      subst hA
      exact ⟨rfl, rfl, _, rfl⟩

theorem getOrCreateIngredientTx_find {s s1 : Store} {ing : BundleIngredient} {iid : Nat}
    (h : getOrCreateIngredientTx s ing = .ok (s1, iid))
    (hcons : ing.normalizedName = dbNormalize ing.name) :
    ∃ row, s1.ingredients.find? (fun i => i.normalizedName == ing.normalizedName) =
      some row ∧ row.id = iid := by
  simp only [getOrCreateIngredientTx] at h
  cases hf : s.ingredients.find? (fun row => row.normalizedName == ing.normalizedName) with
  | some row =>
    rw [hf] at h
    simp only [] at h
    injection h with h1
    injection h1 with hA hB
    subst hA
    exact ⟨row, hf, hB⟩
  | none =>
    rw [hf] at h
    simp only [] at h
    split at h
    · exact absurd h (by simp)
    · injection h with h1
      injection h1 with hA hB
      subst hA
      refine ⟨{ id := s.nextId, name := ing.name, normalizedName := dbNormalize ing.name,
                createdAt := s.now, updatedAt := s.now }, ?_, hB⟩
      rw [find?_append_right hf]
      simp [List.find?, hcons]

theorem getOrCreateIngredientTx_of_found {s : Store} {ing : BundleIngredient}
    {row : IngredientRow}
    (hf : s.ingredients.find? (fun i => i.normalizedName == ing.normalizedName) =
      some row) :
    getOrCreateIngredientTx s ing = .ok (s, row.id) := by
  simp only [getOrCreateIngredientTx, hf]

theorem importIngredientsPhase_ext :
    ∀ (ings : List BundleIngredient) (s : Store) (m : List (Nat × Nat))
      (s1 : Store) (m1 : List (Nat × Nat)),
    importIngredientsPhase s m ings = .ok (s1, m1) →
    s1.recipes = s.recipes ∧ s1.links = s.links ∧
    ∃ δ, s1.ingredients = s.ingredients ++ δ := by
  intro ings
  induction ings with
  | nil =>
    intro s m s1 m1 h
    simp only [importIngredientsPhase] at h
    injection h with h1
    injection h1 with hA hB
    subst hA
    exact ⟨rfl, rfl, [], by simp⟩
  | cons ing rest ih =>
    intro s m s1 m1 h
    simp only [importIngredientsPhase] at h
    cases hstep : getOrCreateIngredientTx s ing with
    | error e => rw [hstep] at h; exact absurd h (by simp)
    | ok p =>
      rw [hstep] at h
      simp only [] at h
      obtain ⟨hr2, hl2, δ2, hi2⟩ := ih p.1 (mapInsert m ing.id p.2) s1 m1 h
      obtain ⟨hr1, hl1, δ1, hi1⟩ := getOrCreateIngredientTx_ext
        (show getOrCreateIngredientTx s ing = Except.ok (p.1, p.2) from hstep)
      exact ⟨by rw [hr2, hr1], by rw [hl2, hl1],
        δ1 ++ δ2, by rw [hi2, hi1, List.append_assoc]⟩

theorem importIngredientsPhase_idem :
    ∀ (ings : List BundleIngredient) (s : Store) (m : List (Nat × Nat))
      (s1 : Store) (m1 : List (Nat × Nat)),
    importIngredientsPhase s m ings = .ok (s1, m1) →
    (∀ ing ∈ ings, ing.normalizedName = dbNormalize ing.name) →
    ∀ t : Store, t.ingredients = s1.ingredients →
    importIngredientsPhase t m ings = .ok (t, m1) := by
  intro ings
  induction ings with
  | nil =>
    intro s m s1 m1 h _ t ht
    simp only [importIngredientsPhase] at h ⊢
    injection h with h1
    injection h1 with hA hB
    rw [hB]
  | cons ing rest ih =>
    intro s m s1 m1 h hcons t ht
    simp only [importIngredientsPhase] at h
    cases hstep : getOrCreateIngredientTx s ing with
    | error e => rw [hstep] at h; exact absurd h (by simp)
    | ok p =>
      rw [hstep] at h
      simp only [] at h
      obtain ⟨row, hfind, hid⟩ :=
        getOrCreateIngredientTx_find hstep (hcons ing (by simp))
      obtain ⟨-, -, δ, hing⟩ := importIngredientsPhase_ext rest p.1 _ s1 m1 h
      have hfind1 : s1.ingredients.find?
          (fun i => i.normalizedName == ing.normalizedName) = some row := by
        rw [hing]; exact find?_append_left hfind
      have hfindt : t.ingredients.find?
          (fun i => i.normalizedName == ing.normalizedName) = some row := by
        rw [ht]; exact hfind1
      have hstept : getOrCreateIngredientTx t ing = .ok (t, p.2) := by
        rw [getOrCreateIngredientTx_of_found hfindt, hid]
      simp only [importIngredientsPhase, hstept]
      exact ih p.1 (mapInsert m ing.id p.2) s1 m1 h
        (fun i hi => hcons i (by simp [hi])) t ht

theorem getOrCreateRecipeTx_ext {s s1 : Store} {rec : BundleRecipe} {rid : Nat}
    (h : getOrCreateRecipeTx s rec = (s1, rid)) :
    s1.ingredients = s.ingredients ∧ s1.links = s.links ∧
    ∃ δ, s1.recipes = s.recipes ++ δ := by
  simp only [getOrCreateRecipeTx] at h
  cases hf : s.recipes.find? (fun row => row.name == rec.name) with
  | some row =>
    rw [hf] at h
    injection h with hA hB
    subst hA
    exact ⟨rfl, rfl, [], by simp⟩
  | none =>
    rw [hf] at h
    injection h with hA hB
    subst hA
    exact ⟨rfl, rfl, _, rfl⟩

theorem getOrCreateRecipeTx_find {s s1 : Store} {rec : BundleRecipe} {rid : Nat}
    (h : getOrCreateRecipeTx s rec = (s1, rid)) :
    ∃ row, s1.recipes.find? (fun r => r.name == rec.name) = some row ∧
      row.id = rid := by
  simp only [getOrCreateRecipeTx] at h
  cases hf : s.recipes.find? (fun row => row.name == rec.name) with
  | some row =>
    rw [hf] at h
    injection h with hA hB
    subst hA
    exact ⟨row, hf, hB⟩
  | none =>
    rw [hf] at h
    injection h with hA hB
    subst hA
    refine ⟨{ id := s.nextId, name := rec.name, method := rec.method, photo := rec.photo,
              createdAt := s.now, updatedAt := s.now }, ?_, hB⟩
    rw [find?_append_right hf]
    simp [List.find?]

theorem getOrCreateRecipeTx_of_found {s : Store} {rec : BundleRecipe}
    {row : RecipeRow}
    (hf : s.recipes.find? (fun r => r.name == rec.name) = some row) :
    getOrCreateRecipeTx s rec = (s, row.id) := by
  simp only [getOrCreateRecipeTx, hf]

theorem importRecipesPhase_ext :
    ∀ (recs : List BundleRecipe) (s : Store) (m : List (Nat × Nat)),
    (importRecipesPhase s m recs).1.ingredients = s.ingredients ∧
    (importRecipesPhase s m recs).1.links = s.links ∧
    ∃ δ, (importRecipesPhase s m recs).1.recipes = s.recipes ++ δ := by
  intro recs
  induction recs with
  | nil => intro s m; exact ⟨rfl, rfl, [], by simp [importRecipesPhase]⟩
  | cons rec rest ih =>
    intro s m
    simp only [importRecipesPhase]
    obtain ⟨hi2, hl2, δ2, hr2⟩ := ih (getOrCreateRecipeTx s rec).1
      (mapInsert m rec.id (getOrCreateRecipeTx s rec).2)
    obtain ⟨hi1, hl1, δ1, hr1⟩ := getOrCreateRecipeTx_ext
      (show getOrCreateRecipeTx s rec =
        ((getOrCreateRecipeTx s rec).1, (getOrCreateRecipeTx s rec).2) from rfl)
    exact ⟨by rw [hi2, hi1], by rw [hl2, hl1],
      δ1 ++ δ2, by rw [hr2, hr1, List.append_assoc]⟩

theorem importRecipesPhase_idem :
    ∀ (recs : List BundleRecipe) (s : Store) (m : List (Nat × Nat))
      (s1 : Store) (m1 : List (Nat × Nat)),
    importRecipesPhase s m recs = (s1, m1) →
    ∀ t : Store, t.recipes = s1.recipes →
    importRecipesPhase t m recs = (t, m1) := by
  intro recs
  induction recs with
  | nil =>
    intro s m s1 m1 h t ht
    simp only [importRecipesPhase] at h ⊢
    injection h with hA hB
    rw [hB]
  | cons rec rest ih =>
    intro s m s1 m1 h t ht
    simp only [importRecipesPhase] at h
    obtain ⟨row, hfind, hid⟩ := getOrCreateRecipeTx_find
      (show getOrCreateRecipeTx s rec =
        ((getOrCreateRecipeTx s rec).1, (getOrCreateRecipeTx s rec).2) from rfl)
    have hs1 : s1 = (importRecipesPhase (getOrCreateRecipeTx s rec).1
        (mapInsert m rec.id (getOrCreateRecipeTx s rec).2) rest).1 := by
      rw [h]
    obtain ⟨-, -, δ, hrec⟩ := importRecipesPhase_ext rest (getOrCreateRecipeTx s rec).1
      (mapInsert m rec.id (getOrCreateRecipeTx s rec).2)
    have hfind1 : s1.recipes.find? (fun r => r.name == rec.name) = some row := by
      rw [hs1, hrec]; exact find?_append_left hfind
    have hfindt : t.recipes.find? (fun r => r.name == rec.name) = some row := by
      rw [ht]; exact hfind1
    have hstept : getOrCreateRecipeTx t rec = (t, (getOrCreateRecipeTx s rec).2) := by
      rw [getOrCreateRecipeTx_of_found hfindt, hid]
    simp only [importRecipesPhase, hstept]
    exact ih (getOrCreateRecipeTx s rec).1 _ s1 m1 h t ht

theorem insertLinkTx_ext {s s1 : Store} {bl : BundleLink}
    {rM iM : List (Nat × Nat)}
    (h : insertRecipeIngredientLinkTx s bl rM iM = .ok s1) :
    s1.recipes = s.recipes ∧ s1.ingredients = s.ingredients ∧
    ∃ δ, s1.links = s.links ++ δ := by
  simp only [insertRecipeIngredientLinkTx] at h
  cases hr : mapLookup rM bl.recipeId with
  | none => rw [hr] at h; exact absurd h (by simp)
  | some rid =>
    rw [hr] at h
    simp only [] at h
    cases hi : mapLookup iM bl.ingredientId with
    | none => rw [hi] at h; exact absurd h (by simp)
    | some iid =>
      rw [hi] at h
      simp only [] at h
      split at h
      · injection h with h1
        subst h1
        exact ⟨rfl, rfl, [], by simp⟩
      · injection h with h1
        subst h1
        exact ⟨rfl, rfl, _, rfl⟩

theorem insertLinkTx_pair {s s1 : Store} {bl : BundleLink}
    {rM iM : List (Nat × Nat)}
    (h : insertRecipeIngredientLinkTx s bl rM iM = .ok s1) :
    ∃ rid iid, mapLookup rM bl.recipeId = some rid ∧
      mapLookup iM bl.ingredientId = some iid ∧
      ∃ x ∈ s1.links, x.recipeId = rid ∧ x.ingredientId = iid := by
  simp only [insertRecipeIngredientLinkTx] at h
  cases hr : mapLookup rM bl.recipeId with
  | none => rw [hr] at h; exact absurd h (by simp)
  | some rid =>
    rw [hr] at h
    simp only [] at h
    cases hi : mapLookup iM bl.ingredientId with
    | none => rw [hi] at h; exact absurd h (by simp)
    | some iid =>
      rw [hi] at h
      simp only [] at h
      split at h
      next hc =>
        injection h with h1
        subst h1
        rcases List.any_eq_true.mp hc with ⟨x, hx, hxp⟩
        simp only [Bool.and_eq_true, beq_iff_eq] at hxp
        exact ⟨rid, iid, rfl, rfl, x, hx, hxp.1, hxp.2⟩
      next hc =>
        injection h with h1
        subst h1
        refine ⟨rid, iid, rfl, rfl,
          ⟨s.nextId, rid, iid, bl.quantityText, bl.sortOrder⟩, by simp, rfl, rfl⟩

theorem insertLinkTx_of_present {s : Store} {bl : BundleLink}
    {rM iM : List (Nat × Nat)} {rid iid : Nat}
    (hr : mapLookup rM bl.recipeId = some rid)
    (hi : mapLookup iM bl.ingredientId = some iid)
    (hp : ∃ x ∈ s.links, x.recipeId = rid ∧ x.ingredientId = iid) :
    insertRecipeIngredientLinkTx s bl rM iM = .ok s := by
  simp only [insertRecipeIngredientLinkTx, hr, hi]
  rw [if_pos ?_]
  rw [List.any_eq_true]
  obtain ⟨x, hx, h1, h2⟩ := hp
  exact ⟨x, hx, by simp [h1, h2]⟩

theorem importLinksPhase_ext :
    ∀ (links : List BundleLink) (s : Store) (rM iM : List (Nat × Nat)) (s1 : Store),
    importLinksPhase s rM iM links = .ok s1 →
    s1.recipes = s.recipes ∧ s1.ingredients = s.ingredients ∧
    ∃ δ, s1.links = s.links ++ δ := by
  intro links
  induction links with
  | nil =>
    intro s rM iM s1 h
    simp only [importLinksPhase] at h
    injection h with h1
    subst h1
    exact ⟨rfl, rfl, [], by simp⟩
  | cons bl rest ih =>
    intro s rM iM s1 h
    simp only [importLinksPhase] at h
    cases hstep : insertRecipeIngredientLinkTx s bl rM iM with
    | error e => rw [hstep] at h; exact absurd h (by simp)
    | ok s2 =>
      rw [hstep] at h
      simp only [] at h
      obtain ⟨hr2, hi2, δ2, hl2⟩ := ih s2 rM iM s1 h
      obtain ⟨hr1, hi1, δ1, hl1⟩ := insertLinkTx_ext hstep
      exact ⟨by rw [hr2, hr1], by rw [hi2, hi1],
        δ1 ++ δ2, by rw [hl2, hl1, List.append_assoc]⟩

theorem importLinksPhase_idem :
    ∀ (links : List BundleLink) (s : Store) (rM iM : List (Nat × Nat)) (s1 : Store),
    importLinksPhase s rM iM links = .ok s1 →
    ∀ t : Store, t.links = s1.links →
    importLinksPhase t rM iM links = .ok t := by
  intro links
  induction links with
  | nil =>
    intro s rM iM s1 h t ht
    simp only [importLinksPhase]
  | cons bl rest ih =>
    intro s rM iM s1 h t ht
    simp only [importLinksPhase] at h
    cases hstep : insertRecipeIngredientLinkTx s bl rM iM with
    | error e => rw [hstep] at h; exact absurd h (by simp)
    | ok s2 =>
      rw [hstep] at h
      simp only [] at h
      obtain ⟨rid, iid, hr, hi, x, hx, hx1, hx2⟩ := insertLinkTx_pair hstep
      obtain ⟨-, -, δ, hl⟩ := importLinksPhase_ext rest s2 rM iM s1 h
      have hxt : x ∈ t.links := by
        rw [ht, hl]; exact List.mem_append_left _ hx
      have hstept : insertRecipeIngredientLinkTx t bl rM iM = .ok t :=
        insertLinkTx_of_present hr hi ⟨x, hxt, hx1, hx2⟩
      simp only [importLinksPhase, hstept]
      exact ih s2 rM iM s1 h t ht

/-- C2 amended (main theorem): bundle import is idempotent for every bundle
whose ingredients carry the server-side canonical name (each ingredient's
`normalized_name` equals the trigger-computed normalization of its `name`,
as every bundle produced by the export endpoint does): re-importing such a
bundle into the store produced by a successful first import succeeds and
returns exactly the same store, so all row counts are unchanged. -/
theorem importBundle_idempotent (b : Bundle) (s0 s1 : Store)
    (hcons : ∀ ing ∈ b.ingredients, ing.normalizedName = dbNormalize ing.name)
    (h1 : importBundle s0 b = .ok s1) :
    importBundle s1 b = .ok s1 ∧ importStore s1 b = s1 := by
  simp only [importBundle] at h1
  cases hA : importIngredientsPhase s0 [] b.ingredients with
  | error e => rw [hA] at h1; exact absurd h1 (by simp)
  | ok pA =>
    rw [hA] at h1
    simp only [] at h1
    obtain ⟨hBi, hBl, δB, hBr⟩ := importRecipesPhase_ext b.recipes pA.1 []
    obtain ⟨hCr, hCi, δC, hCl⟩ := importLinksPhase_ext b.links
      (importRecipesPhase pA.1 [] b.recipes).1 _ _ s1 h1
    obtain ⟨-, -, δA, hAi⟩ := importIngredientsPhase_ext b.ingredients s0 [] pA.1 pA.2 hA
    have hp1 : importIngredientsPhase s1 [] b.ingredients = .ok (s1, pA.2) :=
      importIngredientsPhase_idem b.ingredients s0 [] pA.1 pA.2 hA hcons s1
        (by rw [hCi, hBi])
    have hp2 : importRecipesPhase s1 [] b.recipes =
        (s1, (importRecipesPhase pA.1 [] b.recipes).2) :=
      importRecipesPhase_idem b.recipes pA.1 []
        (importRecipesPhase pA.1 [] b.recipes).1
        (importRecipesPhase pA.1 [] b.recipes).2 rfl s1 (by rw [hCr])
    have hp3 : importLinksPhase s1 (importRecipesPhase pA.1 [] b.recipes).2 pA.2
        b.links = .ok s1 :=
      importLinksPhase_idem b.links (importRecipesPhase pA.1 [] b.recipes).1
        (importRecipesPhase pA.1 [] b.recipes).2 pA.2 s1 h1 s1 rfl
    have hmain : importBundle s1 b = .ok s1 := by
      simp only [importBundle, hp1]
      rw [hp2]
      exact hp3
    exact ⟨hmain, by simp [importStore, hmain]⟩

/-- The bundle of the C2 counterexample: its first ingredient carries a
`normalized_name` ("bar") that is not the normalization of its name
("foo"), and its second ingredient's name is "bar". -/
def c2Bundle : Bundle :=
  { recipes := [⟨10, "r", "m", ""⟩],
    ingredients := [⟨1, "foo", "bar"⟩, ⟨2, "bar", "bar"⟩],
    links := [⟨100, 10, 1, "", 0⟩] }

/-- C2 counterexample: importing `c2Bundle` twice into an empty store
succeeds both times, yet the second import inserts an additional link row
(1 link after the first import, 2 after the second), because the second
run resolves original ingredient id 1 through its bundle-supplied
`normalized_name` to a different store row than the first run did. -/
theorem import_idempotence_counterexample :
    (importBundle emptyStore c2Bundle).isOk = true ∧
    (importBundle (importStore emptyStore c2Bundle) c2Bundle).isOk = true ∧
    (importStore emptyStore c2Bundle).links.length = 1 ∧
    (importStore (importStore emptyStore c2Bundle) c2Bundle).links.length = 2 :=
  ⟨by decide, by decide, by decide, by decide⟩

/-- A self-consistent bundle (normalized names equal the server-side
normalization of the names). -/
def c2GoodBundle : Bundle :=
  { recipes := [⟨10, "r", "m", ""⟩],
    ingredients := [⟨1, "foo", "foo"⟩],
    links := [⟨100, 10, 1, "", 0⟩] }

/-- C2 amended witness: re-importing the self-consistent bundle into the
store its first import produced returns that store unchanged. -/
theorem importBundle_idempotent_witness :
    (∀ ing ∈ c2GoodBundle.ingredients, ing.normalizedName = dbNormalize ing.name) ∧
    importBundle emptyStore c2GoodBundle = .ok (importStore emptyStore c2GoodBundle) ∧
    (importBundle (importStore emptyStore c2GoodBundle) c2GoodBundle =
      .ok (importStore emptyStore c2GoodBundle) ∧
     importStore (importStore emptyStore c2GoodBundle) c2GoodBundle =
      importStore emptyStore c2GoodBundle) :=
  ⟨by decide, by decide,
   importBundle_idempotent c2GoodBundle emptyStore (importStore emptyStore c2GoodBundle)
     (by decide) (by decide)⟩

/-- Lookup after a map insert succeeds for the inserted key or whenever the
old map already had the key. -/
theorem mapLookup_insert_isSome (m : List (Nat × Nat)) (k k2 v : Nat) :
    (mapLookup (mapInsert m k2 v) k).isSome = true ↔
      (k = k2 ∨ (mapLookup m k).isSome = true) := by
  unfold mapInsert mapLookup
  by_cases hk : k2 = k
  · rw [List.find?_cons_of_pos _ (by simp [hk])]
    simp [hk]
  · rw [List.find?_cons_of_neg _ (by simp [hk])]
    constructor
    · exact Or.inr
    · rintro (h | h)
      · exact absurd h.symm hk
      · exact h

/-- The keys of the ingredient-phase map are the processed original ids. -/
theorem importIngredientsPhase_keys :
    ∀ (ings : List BundleIngredient) (s : Store) (m : List (Nat × Nat))
      (s1 : Store) (m1 : List (Nat × Nat)),
    importIngredientsPhase s m ings = .ok (s1, m1) →
    ∀ k, (mapLookup m1 k).isSome = true ↔
      ((mapLookup m k).isSome = true ∨ k ∈ ings.map (fun i => i.id)) := by
  intro ings
  induction ings with
  | nil =>
    intro s m s1 m1 h k
    simp only [importIngredientsPhase] at h
    injection h with h1
    injection h1 with hA hB
    subst hB
    simp
  | cons ing rest ih =>
    intro s m s1 m1 h k
    simp only [importIngredientsPhase] at h
    cases hstep : getOrCreateIngredientTx s ing with
    | error e => rw [hstep] at h; exact absurd h (by simp)
    | ok p =>
      rw [hstep] at h
      simp only [] at h
      rw [ih p.1 (mapInsert m ing.id p.2) s1 m1 h k]
      rw [mapLookup_insert_isSome]
      simp only [List.map_cons, List.mem_cons]
      tauto

/-- The keys of the recipe-phase map are the processed original ids. -/
theorem importRecipesPhase_keys :
    ∀ (recs : List BundleRecipe) (s : Store) (m : List (Nat × Nat))
      (s1 : Store) (m1 : List (Nat × Nat)),
    importRecipesPhase s m recs = (s1, m1) →
    ∀ k, (mapLookup m1 k).isSome = true ↔
      ((mapLookup m k).isSome = true ∨ k ∈ recs.map (fun r => r.id)) := by
  intro recs
  induction recs with
  | nil =>
    intro s m s1 m1 h k
    simp only [importRecipesPhase] at h
    injection h with hA hB
    subst hB
    simp
  | cons rec rest ih =>
    intro s m s1 m1 h k
    simp only [importRecipesPhase] at h
    rw [ih (getOrCreateRecipeTx s rec).1
      (mapInsert m rec.id (getOrCreateRecipeTx s rec).2) s1 m1 h k]
    rw [mapLookup_insert_isSome]
    simp only [List.map_cons, List.mem_cons]
    tauto

/-- A link whose original ids miss the maps makes the links phase fail. -/
theorem importLinksPhase_err :
    ∀ (links : List BundleLink) (s : Store) (rM iM : List (Nat × Nat)),
    (∃ bl ∈ links, mapLookup rM bl.recipeId = none ∨
      mapLookup iM bl.ingredientId = none) →
    ∃ e, importLinksPhase s rM iM links = .error e := by
  intro links
  induction links with
  | nil =>
    intro s rM iM hbad
    simp at hbad
  | cons bl rest ih =>
    intro s rM iM hbad
    simp only [importLinksPhase]
    cases hstep : insertRecipeIngredientLinkTx s bl rM iM with
    | error e => exact ⟨e, rfl⟩
    | ok s2 =>
      obtain ⟨rid, iid, hr, hi, -⟩ := insertLinkTx_pair hstep
      obtain ⟨bl2, hbl2, hmiss⟩ := hbad
      rcases List.mem_cons.mp hbl2 with h2 | h2
      · subst h2
        rcases hmiss with hmiss | hmiss
        · rw [hr] at hmiss; exact absurd hmiss (by simp)
        · rw [hi] at hmiss; exact absurd hmiss (by simp)
      · exact ih s2 rM iM ⟨bl2, h2, hmiss⟩

/-- Rollback: whenever the import call fails, the visible store is the one
from before the call. -/
theorem importStore_of_error {s : Store} {b : Bundle}
    (h : ∃ e, importBundle s b = .error e) : importStore s b = s := by
  obtain ⟨e, he⟩ := h
  simp [importStore, he]

/-- C3: if any link of the bundle references an original recipe id or
ingredient id that does not occur in the bundle's own recipes/ingredients
arrays, the whole import call fails, and the store is exactly as before the
call — every phase's inserts are rolled back. -/
theorem import_bad_link_fails (s : Store) (b : Bundle)
    (hbad : ∃ bl ∈ b.links,
      (∀ rec ∈ b.recipes, rec.id ≠ bl.recipeId) ∨
      (∀ ing ∈ b.ingredients, ing.id ≠ bl.ingredientId)) :
    (∃ e, importBundle s b = .error e) ∧ importStore s b = s := by
  have herr : ∃ e, importBundle s b = .error e := by
    cases hA : importIngredientsPhase s [] b.ingredients with
    | error e => exact ⟨e, by simp [importBundle, hA]⟩
    | ok pA =>
      have hiKeys := importIngredientsPhase_keys b.ingredients s [] pA.1 pA.2
        (show _ = Except.ok (pA.1, pA.2) from hA)
      have hrKeys := importRecipesPhase_keys b.recipes pA.1 []
        (importRecipesPhase pA.1 [] b.recipes).1
        (importRecipesPhase pA.1 [] b.recipes).2 rfl
      obtain ⟨bl, hbl, hmiss⟩ := hbad
      have hmiss2 : mapLookup (importRecipesPhase pA.1 [] b.recipes).2 bl.recipeId = none ∨
          mapLookup pA.2 bl.ingredientId = none := by
        rcases hmiss with hmiss | hmiss
        · left
          rw [← Option.not_isSome_iff_eq_none]
          intro hs2
          rcases (hrKeys bl.recipeId).mp hs2 with hc | hc
          · simp [mapLookup] at hc
          · rcases List.mem_map.mp hc with ⟨rec, hrec, hid⟩
            exact hmiss rec hrec hid
        · right
          rw [← Option.not_isSome_iff_eq_none]
          intro hs2
          rcases (hiKeys bl.ingredientId).mp hs2 with hc | hc
          · simp [mapLookup] at hc
          · rcases List.mem_map.mp hc with ⟨ing, hing, hid⟩
            exact hmiss ing hing hid
      obtain ⟨e, he⟩ := importLinksPhase_err b.links
        (importRecipesPhase pA.1 [] b.recipes).1
        (importRecipesPhase pA.1 [] b.recipes).2 pA.2 ⟨bl, hbl, hmiss2⟩
      refine ⟨e, ?_⟩
      simp only [importBundle]
      rw [hA]
      exact he
  exact ⟨herr, importStore_of_error herr⟩

/-- The bundle of the C3 witness: its only link references original
ingredient id 99, which its ingredients array does not contain. -/
def c3Bundle : Bundle :=
  { recipes := [⟨10, "r", "m", ""⟩],
    ingredients := [⟨1, "foo", "foo"⟩],
    links := [⟨100, 10, 99, "", 0⟩] }

/-- C3 witness: the dangling-link bundle makes the import fail (with the
missing-ingredient-mapping error) and leaves the demo store unchanged. -/
theorem import_bad_link_fails_witness :
    (∃ bl ∈ c3Bundle.links,
      (∀ rec ∈ c3Bundle.recipes, rec.id ≠ bl.recipeId) ∨
      (∀ ing ∈ c3Bundle.ingredients, ing.id ≠ bl.ingredientId)) ∧
    ((∃ e, importBundle demoStore c3Bundle = .error e) ∧
      importStore demoStore c3Bundle = demoStore) ∧
    importBundle demoStore c3Bundle = .error (.missingIngredientMapping 99) :=
  ⟨⟨⟨100, 10, 99, "", 0⟩, by decide, Or.inr (by decide)⟩,
   import_bad_link_fails demoStore c3Bundle
     ⟨⟨100, 10, 99, "", 0⟩, by decide, Or.inr (by decide)⟩,
   by decide⟩

end GoRecipes
